import Mathlib

set_option autoImplicit false
set_option maxHeartbeats 1000000

/-!
Shallow embedding of the KiCad autoplacer (`pcbnew/autorouter/ar_autoplacer.cpp`)
and proofs about it.

Conventions:
- Coordinates are KiCad internal units (integers, 10^6 per millimetre), modelled as `ℤ`.
- C `int` division and modulus truncate toward zero: modelled with `Int.tdiv` / `Int.tmod`.
- C `double` values are idealized as exact real numbers (`ℝ`); `hypot x y` is
  `Real.sqrt (x^2 + y^2)`; a `(int)` cast of a double is truncation toward zero.
- The companion grid type `AR_MATRIX` (`ar_matrix.cpp`), the `MODULE`/`PAD` geometry
  accessors and the connectivity subsystem are not part of the given sources; where a
  definition models such missing code it carries a doc comment starting with
  `Modelled from the spec:`.
-/

/-- Integer 2D point (KiCad `wxPoint` / `VECTOR2I`, internal units). -/
structure Pt where
  x : ℤ
  y : ℤ
deriving DecidableEq, Repr

/-- Pointwise addition of points/vectors. -/
def Pt.add (p q : Pt) : Pt := ⟨p.x + q.x, p.y + q.y⟩

/-- Pointwise subtraction of points/vectors. -/
def Pt.sub (p q : Pt) : Pt := ⟨p.x - q.x, p.y - q.y⟩

/-- Negation of a vector. -/
def Pt.neg (p : Pt) : Pt := ⟨-p.x, -p.y⟩

/-- Axis-aligned rectangle (KiCad `EDA_RECT`): position plus size. -/
structure Rect where
  x : ℤ
  y : ℤ
  w : ℤ
  h : ℤ
deriving DecidableEq, Repr

/-- Origin (`EDA_RECT::GetOrigin` / `GetPosition`). -/
def Rect.origin (r : Rect) : Pt := ⟨r.x, r.y⟩

/-- Corner opposite the origin (`EDA_RECT::GetEnd` = position + size). -/
def Rect.getEnd (r : Rect) : Pt := ⟨r.x + r.w, r.y + r.h⟩

/-- Right edge (`EDA_RECT::GetRight`). -/
def Rect.right (r : Rect) : ℤ := r.x + r.w

/-- Bottom edge (`EDA_RECT::GetBottom`; y grows downward in KiCad). -/
def Rect.bottom (r : Rect) : ℤ := r.y + r.h

/-- `EDA_RECT::Inflate(d)` for a normalized (non-negative size) rectangle:
grow by `d` on every side.  All rectangles inflated by the autoplacer are
bounding boxes, hence normalized. -/
def Rect.inflate (r : Rect) (d : ℤ) : Rect := ⟨r.x - d, r.y - d, r.w + 2 * d, r.h + 2 * d⟩

/-- `EDA_RECT::Move(v)`: translate by a vector. -/
def Rect.move (r : Rect) (v : Pt) : Rect := ⟨r.x + v.x, r.y + v.y, r.w, r.h⟩

/-- `EDA_RECT::Contains(point)` for a normalized rectangle: both edges inclusive. -/
def Rect.contains (r : Rect) (p : Pt) : Bool :=
  decide (r.x ≤ p.x) && decide (p.x ≤ r.x + r.w) && decide (r.y ≤ p.y) && decide (p.y ≤ r.y + r.h)

/-- One occupancy-grid cell: the bitmask
`{CELL_IS_HOLE, CELL_IS_MODULE, CELL_IS_EDGE, CELL_IS_FRIEND, CELL_IS_ZONE}`
from `ar_autoplacer.cpp` modelled as a record of flags (the spec's
`{hole, occupiedByUnit, boardEdge, sameNetFriend, insideBoardZone}`). -/
structure Cell where
  hole : Bool
  module : Bool
  edge : Bool
  friendNet : Bool
  zone : Bool
deriving DecidableEq, Repr

/-- The all-clear cell (`CELL_IS_EMPTY`). -/
def Cell.empty : Cell := ⟨false, false, false, false, false⟩

/-- Bitwise OR of two cell masks (`WRITE_OR_CELL` mode). -/
def Cell.or (a b : Cell) : Cell :=
  ⟨a.hole || b.hole, a.module || b.module, a.edge || b.edge,
   a.friendNet || b.friendNet, a.zone || b.zone⟩

/-- Routing side index: `AR_SIDE_TOP`.
Modelled from the spec: the header defining the side constants is not among the
given sources; the grid has "two logical sides (front/back)". -/
def arSideTop : ℕ := 0

/-- Routing side index: `AR_SIDE_BOTTOM`. -/
def arSideBottom : ℕ := 1

/-- Verdict `AR_OUT_OF_BOARD` of the candidate evaluator.
Modelled from the spec: the header with the verdict constants is not among the given
sources; the verdicts other than `AR_FREE_CELL` are negative so that the caller's
test `keepOutCost >= 0` recognises legal positions (a keep-out cost is `≥ 0`). -/
def arOutOfBoard : ℤ := -2

/-- Verdict `AR_OCCUIPED_BY_MODULE` (sic) of the candidate evaluator. -/
def arOccupiedByModule : ℤ := -1

/-- Verdict `AR_FREE_CELL`: the rectangle is legal. -/
def arFreeCell : ℤ := 0

/-- `AR_GAIN` from `ar_autoplacer.cpp`. -/
def arGain : ℤ := 16

/-- `AR_KEEPOUT_MARGIN` from `ar_autoplacer.cpp`. -/
def arKeepoutMargin : ℤ := 500

/-- `AR_ABORT_PLACEMENT` from `ar_autoplacer.cpp`. -/
def arAbortPlacement : ℤ := -1

/-- The occupancy grid (`AR_MATRIX`): geometry, per-side cell flags, per-side
keep-out cost ("distance") accumulators.
Modelled from the spec: `ar_matrix.cpp` is not among the given sources; the grid is
"a 2D array indexed by (row, column) × side" of flag masks plus "a separate scalar
keep-out cost accumulator", carried here as total functions. -/
structure ARMatrix where
  gridRouting : ℤ
  nrows : ℤ
  ncols : ℤ
  brdBox : Rect
  layersCount : ℕ
  cell : ℤ → ℤ → ℕ → Cell
  dist : ℤ → ℤ → ℕ → ℕ

/-- `AR_MATRIX::GetCell`. -/
def ARMatrix.getCell (m : ARMatrix) (row col : ℤ) (side : ℕ) : Cell := m.cell row col side

/-- `AR_MATRIX::GetDist` (keep-out cost of one cell). -/
def ARMatrix.getDist (m : ARMatrix) (row col : ℤ) (side : ℕ) : ℕ := m.dist row col side

/-- `AR_MATRIX::SetCell` (`WRITE_CELL` mode: overwrite). -/
def ARMatrix.setCell (m : ARMatrix) (row col : ℤ) (side : ℕ) (v : Cell) : ARMatrix :=
  { m with cell := fun r c s => if r = row ∧ c = col ∧ s = side then v else m.cell r c s }

/-- `AR_MATRIX::OrCell` (`WRITE_OR_CELL` mode: bitwise or). -/
def ARMatrix.orCell (m : ARMatrix) (row col : ℤ) (side : ℕ) (v : Cell) : ARMatrix :=
  { m with cell := fun r c s =>
      if r = row ∧ c = col ∧ s = side then Cell.or (m.cell r c s) v else m.cell r c s }

/-- List of consecutive integers `a, a+1, …, b` (empty when `b < a`).  Helper for
translating C `for (i = a; i <= b; i++)` loops. -/
def intRange (a b : ℤ) : List ℤ :=
  (List.range (b + 1 - a).toNat).map (fun i : ℕ => a + (i : ℤ))

/-- Number of iterations of a C loop `for (v = a; v < b; v += step)` with `step > 0`:
the count `⌈(b - a)/step⌉` clamped at zero. -/
def stepCount (a b step : ℤ) : ℕ := ((b - a + step - 1).tdiv step).toNat

/-- Values visited by a C loop `for (v = a; v < b; v += step)` with `step > 0`. -/
def stepRange (a b step : ℤ) : List ℤ :=
  (List.range (stepCount a b step)).map (fun i : ℕ => a + step * (i : ℤ))

/-- Row/column range over which `AR_AUTOPLACER::testRectangle` and
`AR_AUTOPLACER::calculateKeepOutArea` scan the grid (both functions repeat the
same computation verbatim in the source): divide the rectangle's corner offsets
from the grid origin by the pitch, bump the minima up if the rectangle starts
strictly inside a cell, and clamp to the grid bounds.
Returns `(rowMin, rowMax, colMin, colMax)`. -/
def matrixCellRange (m : ARMatrix) (rect : Rect) : ℤ × ℤ × ℤ × ℤ :=
  let start := (rect.origin).sub m.brdBox.origin
  let stop := (rect.getEnd).sub m.brdBox.origin
  let rowMin0 := start.y.tdiv m.gridRouting
  let rowMax0 := stop.y.tdiv m.gridRouting
  let colMin0 := start.x.tdiv m.gridRouting
  let colMax0 := stop.x.tdiv m.gridRouting
  let rowMin1 := if start.y > rowMin0 * m.gridRouting then rowMin0 + 1 else rowMin0
  let colMin1 := if start.x > colMin0 * m.gridRouting then colMin0 + 1 else colMin0
  let rowMin := if rowMin1 < 0 then 0 else rowMin1
  let rowMax := if rowMax0 ≥ m.nrows - 1 then m.nrows - 1 else rowMax0
  let colMin := if colMin1 < 0 then 0 else colMin1
  let colMax := if colMax0 ≥ m.ncols - 1 then m.ncols - 1 else colMax0
  (rowMin, rowMax, colMin, colMax)

/-- Inner column scan of `AR_AUTOPLACER::testRectangle`: first bad verdict in one
row, scanning columns left to right; `CELL_IS_ZONE` is tested before
`CELL_IS_MODULE`. -/
def testRectRow (m : ARMatrix) (side : ℕ) (row : ℤ) : List ℤ → Option ℤ
  | [] => none
  | col :: cols =>
    let data := m.getCell row col side
    if data.zone = false then some arOutOfBoard
    else if data.module = true then some arOccupiedByModule
    else testRectRow m side row cols

/-- Outer row scan of `AR_AUTOPLACER::testRectangle`: first bad verdict over the
rows, each row scanned column by column. -/
def testRectRows (m : ARMatrix) (side : ℕ) (cols : List ℤ) : List ℤ → Option ℤ
  | [] => none
  | row :: rows =>
    match testRectRow m side row cols with
    | some v => some v
    | none => testRectRows m side cols rows

/-- `AR_AUTOPLACER::testRectangle`: inflate the rectangle by half the routing grid
pitch, convert it to a clamped row/column range, and scan all covered cells,
returning `AR_OUT_OF_BOARD`, `AR_OCCUIPED_BY_MODULE` or `AR_FREE_CELL`. -/
def testRectangle (m : ARMatrix) (aRect : Rect) (side : ℕ) : ℤ :=
  let rg := matrixCellRange m (aRect.inflate (m.gridRouting.tdiv 2))
  (testRectRows m side (intRange rg.2.2.1 rg.2.2.2) (intRange rg.1 rg.2.1)).getD arFreeCell

/-- `AR_AUTOPLACER::calculateKeepOutArea`: sum of the per-cell keep-out costs over
the (not further inflated) cell range of a rectangle. -/
def calculateKeepOutArea (m : ARMatrix) (aRect : Rect) (side : ℕ) : ℕ :=
  let rg := matrixCellRange m aRect
  ((intRange rg.1 rg.2.1).map (fun row =>
      ((intRange rg.2.2.1 rg.2.2.2).map (fun col => m.getDist row col side)).sum)).sum

/-- Whether a scanned cell is "bad" for `testRectangle`: it lacks the
`insideBoardZone` flag or it carries the `occupiedByUnit` flag. -/
def cellBad (m : ARMatrix) (side : ℕ) (rc : ℤ × ℤ) : Bool :=
  (!(m.getCell rc.1 rc.2 side).zone) || (m.getCell rc.1 rc.2 side).module

/-- Verdict contributed by a single bad cell, testing the board-zone flag before
the occupied flag. -/
def cellVerdict (m : ARMatrix) (side : ℕ) (rc : ℤ × ℤ) : ℤ :=
  if (m.getCell rc.1 rc.2 side).zone = false then arOutOfBoard else arOccupiedByModule

/-- Cells covered by `testRectangle`, in the scan order of the source (rows outer,
columns inner), after the half-pitch inflation and range clamping. -/
def scanCells (m : ARMatrix) (aRect : Rect) (side : ℕ) : List (ℤ × ℤ) :=
  let rg := matrixCellRange m (aRect.inflate (m.gridRouting.tdiv 2))
  (intRange rg.1 rg.2.1).flatMap (fun row => (intRange rg.2.2.1 rg.2.2.2).map (fun col => (row, col)))

/-- The claim's reading of `testRectangle`: `outOfBoard` as soon as ANY covered
cell lacks `insideBoardZone`, `occupiedByUnit` only when no cell lacks the zone
flag but some cell is occupied, else legal. -/
def testRectangleClaim (m : ARMatrix) (aRect : Rect) (side : ℕ) : ℤ :=
  let cells := scanCells m aRect side
  if cells.any (fun rc => !(m.getCell rc.1 rc.2 side).zone) then arOutOfBoard
  else if cells.any (fun rc => (m.getCell rc.1 rc.2 side).module) then arOccupiedByModule
  else arFreeCell

/-- What the source actually computes: the verdict of the FIRST offending cell in
scan order (rows outer, columns inner), the zone test checked before the occupied
test within each cell. -/
def testRectangleFirstBad (m : ARMatrix) (aRect : Rect) (side : ℕ) : ℤ :=
  match (scanCells m aRect side).find? (cellBad m side) with
  | none => arFreeCell
  | some rc => cellVerdict m side rc

/-- A grid for exercising `testRectangle`: one row, two columns; cell (0,0) is
inside the board zone but occupied, cell (0,1) is outside the board zone. -/
def mixedMatrix : ARMatrix where
  gridRouting := 1000000
  nrows := 1
  ncols := 2
  brdBox := ⟨0, 0, 2000000, 1000000⟩
  layersCount := 2
  cell := fun r c _ =>
    if r = 0 ∧ c = 0 then ⟨false, true, false, false, true⟩ else Cell.empty
  dist := fun _ _ _ => 0

lemma testRectRow_eq_find (m : ARMatrix) (side : ℕ) (row : ℤ) (cols : List ℤ) :
    testRectRow m side row cols =
      (cols.find? (fun c => cellBad m side (row, c))).map (fun c => cellVerdict m side (row, c)) := by
  induction cols with
  | nil => simp [testRectRow]
  | cons c cs ih =>
    by_cases hz : (m.getCell row c side).zone = false
    · simp [testRectRow, hz, List.find?_cons, cellBad, cellVerdict, hz]
    · rw [Bool.not_eq_false] at hz
      by_cases hm : (m.getCell row c side).module = true
      · simp [testRectRow, hz, hm, List.find?_cons, cellBad, cellVerdict]
      · rw [Bool.not_eq_true] at hm
        simp [testRectRow, hz, hm, List.find?_cons, cellBad, cellVerdict, ih]

lemma testRectRows_eq_find (m : ARMatrix) (side : ℕ) (cols rows : List ℤ) :
    testRectRows m side cols rows =
      ((rows.flatMap (fun row => cols.map (fun col => (row, col)))).find?
          (cellBad m side)).map (cellVerdict m side) := by
  induction rows with
  | nil => simp [testRectRows]
  | cons r rs ih =>
    rw [List.flatMap_cons, List.find?_append, List.find?_map]
    have hcomp : (cellBad m side ∘ fun col => (r, col)) = fun c => cellBad m side (r, c) := rfl
    rw [hcomp]
    have hrow := testRectRow_eq_find m side r cols
    cases hfind : cols.find? (fun c => cellBad m side (r, c)) with
    | none =>
      rw [hfind] at hrow
      simp only [testRectRows, hrow, Option.map_none', Option.none_or, ih]
    | some c =>
      rw [hfind] at hrow
      simp only [testRectRows, hrow, Option.map_some', ih]
      rfl

/-- C5: the claim reads `testRectangle` as giving `outOfBoard` global priority over
`occupiedByUnit`.  The source returns at the FIRST offending cell in scan order:
on a rectangle covering an occupied in-zone cell before an out-of-zone cell it
answers `occupiedByUnit` even though a covered cell lacks `insideBoardZone`. -/
theorem testRectangle_priority_counterexample :
    testRectangle mixedMatrix ⟨500000, 500000, 1000000, 0⟩ arSideTop = arOccupiedByModule ∧
    testRectangleClaim mixedMatrix ⟨500000, 500000, 1000000, 0⟩ arSideTop = arOutOfBoard ∧
    arOccupiedByModule ≠ arOutOfBoard := by
  refine ⟨by decide, by decide, by decide⟩

/-- C5 (amended): `testRectangle` inflates by half the grid pitch, converts to the
clamped row/column range and scans the covered cells row-major; it returns the
verdict of the first offending cell (zone flag tested before occupied flag within
a cell), and `legal` when no covered cell offends. -/
theorem testRectangle_eq_firstBad (m : ARMatrix) (aRect : Rect) (side : ℕ) :
    testRectangle m aRect side = testRectangleFirstBad m aRect side := by
  simp only [testRectangle, testRectangleFirstBad, scanCells]
  rw [testRectRows_eq_find]
  cases hfind : ((intRange (matrixCellRange m (aRect.inflate (m.gridRouting.tdiv 2))).1
      (matrixCellRange m (aRect.inflate (m.gridRouting.tdiv 2))).2.1).flatMap
        (fun row => (intRange (matrixCellRange m (aRect.inflate (m.gridRouting.tdiv 2))).2.2.1
          (matrixCellRange m (aRect.inflate (m.gridRouting.tdiv 2))).2.2.2).map
            (fun col => (row, col)))).find? (cellBad m side) with
  | none => simp [hfind]
  | some rc => simp [hfind]

/-- Crossing of one board-outline edge with the horizontal scanline at `refy`
(the edge-loop body of `AR_AUTOPLACER::fillMatrix`): skip edges entirely above or
entirely at-or-below the scanline, skip horizontal edges, and otherwise intersect.
The C code computes `(int)(newrefy * ((double) seg_endX / seg_endY)) + seg_startX`;
with doubles idealized as exact reals, the association is immaterial and the final
`(int)` cast is truncation toward zero, i.e. `Int.tdiv`. -/
def edgeCrossing (refy : ℤ) (p q : Pt) : Option ℤ :=
  if p.y > refy ∧ q.y > refy then none
  else if p.y ≤ refy ∧ q.y ≤ refy then none
  else if q.y - p.y = 0 then none
  else some (((refy - p.y) * (q.x - p.x)).tdiv (q.y - p.y) + p.x)

/-- Intersections of the scanline at `refy` with all edges of the closed outline
polygon, in edge order (`SHAPE_LINE_CHAIN::CPoint` wraps the index of a closed
chain, hence the modulus). -/
def crossings (outline : List Pt) (refy : ℤ) : List ℤ :=
  (List.range outline.length).filterMap (fun v =>
    edgeCrossing refy (outline.getD v ⟨0, 0⟩) (outline.getD ((v + 1) % outline.length) ⟨0, 0⟩))

/-- Insert into a sorted list (ascending). -/
def insertSorted (a : ℤ) : List ℤ → List ℤ
  | [] => [a]
  | b :: bs => if a ≤ b then a :: b :: bs else b :: insertSorted a bs

/-- Ascending sort of the intersection x-coordinates (`std::sort`; on `ℤ` the
result is unique, so the choice of algorithm is immaterial). -/
def sortInts : List ℤ → List ℤ
  | [] => []
  | a :: as => insertSorted a (sortInts as)

/-- Group a sorted even-length intersection list into consecutive pairs, each the
two ends of one filled segment. -/
def pairUp : List ℤ → List (ℤ × ℤ)
  | a :: b :: rest => (a, b) :: pairUp rest
  | _ => []

/-- Columns filled for one segment `[segS, segE]` (origin-relative) of one
scanline: the C loop `for (idx = segS/step; idx < ncols; idx++)` breaks at
`idx*step > segE` and marks when `idx*step >= segS`. -/
def fillCols (step ncols segS segE : ℤ) : List ℤ :=
  ((((List.range (ncols - segS.tdiv step).toNat).map (fun i : ℕ => segS.tdiv step + (i : ℤ))).takeWhile
      (fun idx => decide (idx * step ≤ segE))).filter (fun idx => decide (segS ≤ idx * step)))

/-- Cells marked `CELL_IS_ZONE` on one scanline with sorted intersection list `xs`. -/
def rowCellMarks (m : ARMatrix) (orgx : ℤ) (idy : ℤ) (xs : List ℤ) : List (ℤ × ℤ) :=
  (pairUp xs).flatMap (fun pr =>
    (fillCols m.gridRouting m.ncols (pr.1 - orgx) (pr.2 - orgx)).map (fun idx => (idy, idx)))

/-- Scanline loop of `AR_AUTOPLACER::fillMatrix` over the remaining `refy` values:
break when the row index reaches the grid height, skip rows at or above index 0,
abort (success = false, no further marks) on an odd intersection count, otherwise
mark this row's cells and continue.  Returns the success flag together with the
`(row, column)` cells set to `CELL_IS_ZONE`, in write order. -/
def fillMatrixRows (m : ARMatrix) (outline : List Pt) (org : Pt) : List ℤ → Bool × List (ℤ × ℤ)
  | [] => (true, [])
  | refy :: rest =>
    let idy := (refy - org.y).tdiv m.gridRouting
    if idy ≥ m.nrows then (true, [])
    else if idy ≤ 0 then fillMatrixRows m outline org rest
    else
      let xs := sortInts (crossings outline refy)
      if xs.length % 2 = 1 then (false, [])
      else
        let res := fillMatrixRows m outline org rest
        (res.1, rowCellMarks m org.x idy xs ++ res.2)

/-- Bounding box of a point chain (`SHAPE_LINE_CHAIN::BBox`). -/
def chainBBox (pts : List Pt) : Rect :=
  match pts with
  | [] => ⟨0, 0, 0, 0⟩
  | p :: rest =>
    let minX := (rest.map Pt.x).foldl min p.x
    let minY := (rest.map Pt.y).foldl min p.y
    let maxX := (rest.map Pt.x).foldl max p.x
    let maxY := (rest.map Pt.y).foldl max p.y
    ⟨minX, minY, maxX - minX, maxY - minY⟩

/-- `AR_AUTOPLACER::fillMatrix`: scan the board outline's bounding-box rows from
top to bottom at the routing pitch (`Fracture` of the already-single outline is the
identity).  Returns the success flag and the cells marked `CELL_IS_ZONE`. -/
def fillMatrix (m : ARMatrix) (boardShape : List Pt) : Bool × List (ℤ × ℤ) :=
  let rect := chainBBox boardShape
  fillMatrixRows m boardShape m.brdBox.origin (stepRange rect.y rect.bottom m.gridRouting)

/-- Scanlines of `fillMatrix` that are actually checked: the prefix before the
row index first reaches the grid height, restricted to rows with positive index. -/
def scannedRows (m : ARMatrix) (org : Pt) (refys : List ℤ) : List ℤ :=
  (refys.takeWhile (fun refy => decide ((refy - org.y).tdiv m.gridRouting < m.nrows))).filter
    (fun refy => decide (0 < (refy - org.y).tdiv m.gridRouting))

/-- Whether the scanline at `refy` has an odd number of outline intersections. -/
def oddRow (outline : List Pt) (refy : ℤ) : Bool :=
  (crossings outline refy).length % 2 = 1

lemma sortInts_length (l : List ℤ) : (sortInts l).length = l.length := by
  have hins : ∀ (a : ℤ) (l : List ℤ), (insertSorted a l).length = l.length + 1 := by
    intro a l
    induction l with
    | nil => rfl
    | cons b bs ih =>
      by_cases h : a ≤ b
      · simp [insertSorted, h]
      · simp [insertSorted, h, ih]
  induction l with
  | nil => rfl
  | cons a as ih => simp [sortInts, hins, ih]

lemma scannedRows_cons_stop (m : ARMatrix) (org : Pt) (refy : ℤ) (rest : List ℤ)
    (h : ¬ (refy - org.y).tdiv m.gridRouting < m.nrows) :
    scannedRows m org (refy :: rest) = [] := by
  simp [scannedRows, List.takeWhile_cons, h]

lemma scannedRows_cons_skip (m : ARMatrix) (org : Pt) (refy : ℤ) (rest : List ℤ)
    (h1 : (refy - org.y).tdiv m.gridRouting < m.nrows)
    (h2 : ¬ 0 < (refy - org.y).tdiv m.gridRouting) :
    scannedRows m org (refy :: rest) = scannedRows m org rest := by
  simp [scannedRows, List.takeWhile_cons, h1, List.filter_cons, h2]

lemma scannedRows_cons_keep (m : ARMatrix) (org : Pt) (refy : ℤ) (rest : List ℤ)
    (h1 : (refy - org.y).tdiv m.gridRouting < m.nrows)
    (h2 : 0 < (refy - org.y).tdiv m.gridRouting) :
    scannedRows m org (refy :: rest) = refy :: scannedRows m org rest := by
  simp [scannedRows, List.takeWhile_cons, h1, List.filter_cons, h2]

/-- C9: the scanline fill returns `success = false` exactly when some checked
scanline (positive row index, before the row index reaches the grid height) has an
odd number of outline-edge intersections; it marks only the rows strictly before
the first odd scanline (so it stops there); and an edge whose two endpoints share
one y coordinate (horizontal, or degenerate to a point) contributes no
intersection.  On a well-formed outline (every checked scanline even) the result
is `success = true` with every checked row filled. -/
theorem fillMatrix_success_iff_even :
    (∀ (m : ARMatrix) (outline : List Pt) (org : Pt) (refys : List ℤ),
      fillMatrixRows m outline org refys =
        (((scannedRows m org refys).find? (oddRow outline)).isNone,
         ((scannedRows m org refys).takeWhile (fun refy => !oddRow outline refy)).flatMap
            (fun refy => rowCellMarks m org.x ((refy - org.y).tdiv m.gridRouting)
              (sortInts (crossings outline refy))))) ∧
    (∀ (refy : ℤ) (p q : Pt), p.y = q.y → edgeCrossing refy p q = none) := by
  constructor
  · intro m outline org refys
    induction refys with
    | nil => simp [fillMatrixRows, scannedRows]
    | cons refy rest ih =>
      have hlen : (sortInts (crossings outline refy)).length = (crossings outline refy).length :=
        sortInts_length _
      by_cases h1 : (refy - org.y).tdiv m.gridRouting ≥ m.nrows
      · rw [scannedRows_cons_stop m org refy rest (not_lt.mpr h1)]
        simp [fillMatrixRows, if_pos h1]
      · have h1lt : (refy - org.y).tdiv m.gridRouting < m.nrows := not_le.mp h1
        by_cases h2 : (refy - org.y).tdiv m.gridRouting ≤ 0
        · rw [scannedRows_cons_skip m org refy rest h1lt (not_lt.mpr h2)]
          rw [show fillMatrixRows m outline org (refy :: rest) =
              fillMatrixRows m outline org rest by simp [fillMatrixRows, if_neg h1, if_pos h2]]
          exact ih
        · have h2lt : 0 < (refy - org.y).tdiv m.gridRouting := not_le.mp h2
          rw [scannedRows_cons_keep m org refy rest h1lt h2lt]
          by_cases h3 : oddRow outline refy = true
          · have h3len : (sortInts (crossings outline refy)).length % 2 = 1 := by
              rw [hlen]
              simpa [oddRow] using h3
            rw [show fillMatrixRows m outline org (refy :: rest) = (false, []) by
              simp [fillMatrixRows, if_neg h1, if_neg h2, if_pos h3len]]
            rw [List.find?_cons, List.takeWhile_cons]
            simp [h3]
          · have h3f : oddRow outline refy = false := by
              simpa using h3
            have h3len : ¬ (sortInts (crossings outline refy)).length % 2 = 1 := by
              rw [hlen]
              simpa [oddRow] using h3
            rw [show fillMatrixRows m outline org (refy :: rest) =
                ((fillMatrixRows m outline org rest).1,
                  rowCellMarks m org.x ((refy - org.y).tdiv m.gridRouting)
                      (sortInts (crossings outline refy)) ++
                    (fillMatrixRows m outline org rest).2) by
              simp [fillMatrixRows, if_neg h1, if_neg h2, if_neg h3len]]
            rw [ih, List.find?_cons, List.takeWhile_cons]
            simp [h3f]
  · intro refy p q hpq
    by_cases h : p.y > refy
    · have hb : p.y > refy ∧ q.y > refy := ⟨h, hpq ▸ h⟩
      simp [edgeCrossing, hb]
    · have hcond : ¬(p.y > refy ∧ q.y > refy) := fun hc => h hc.1
      have hb : p.y ≤ refy ∧ q.y ≤ refy := ⟨not_lt.mp h, hpq ▸ not_lt.mp h⟩
      simp [edgeCrossing, hcond, hb]

/-- Witness for the C9 theorem: instantiate the main equation on a concrete grid,
outline and row list, and the horizontal-edge clause on a concrete edge. -/
theorem fillMatrix_success_iff_even_witness :
    (fillMatrixRows mixedMatrix [] ⟨0, 0⟩ [] =
      (((scannedRows mixedMatrix ⟨0, 0⟩ []).find? (oddRow [])).isNone,
       ((scannedRows mixedMatrix ⟨0, 0⟩ []).takeWhile (fun refy => !oddRow [] refy)).flatMap
          (fun refy => rowCellMarks mixedMatrix (0 : ℤ) ((refy - (0 : ℤ)).tdiv mixedMatrix.gridRouting)
            (sortInts (crossings [] refy))))) ∧
    edgeCrossing 0 ⟨0, 5⟩ ⟨7, 5⟩ = none :=
  ⟨fillMatrix_success_iff_even.1 mixedMatrix [] ⟨0, 0⟩ [],
   fillMatrix_success_iff_even.2 0 ⟨0, 5⟩ ⟨7, 5⟩ rfl⟩

/-- Ceiling division for a positive divisor, as C code computes it:
`(a + b - 1) / b` with truncating division. -/
def ceilDivInt (a b : ℤ) : ℤ := (a + b - 1).tdiv b

/-- `AR_MATRIX::ComputeMatrixSize`.
Modelled from the spec: `ar_matrix.cpp` is not among the given sources; "Grid
dimensions = ceil(boardWidth/pitch) × ceil(boardHeight/pitch)", the grid origin
being the board bounding box origin. -/
def computeMatrixSize (m : ARMatrix) (bbox : Rect) : ARMatrix :=
  { m with brdBox := bbox,
           nrows := ceilDivInt bbox.h m.gridRouting,
           ncols := ceilDivInt bbox.w m.gridRouting }

/-- An uninitialized/empty grid at pitch `p` (`InitRoutingMatrix` yields all-empty
cells and zero keep-out costs). -/
def emptyMatrix (p : ℤ) : ARMatrix :=
  ⟨p, 0, 0, ⟨0, 0, 0, 0⟩, 2, fun _ _ _ => Cell.empty, fun _ _ _ => 0⟩

/-- Grid over a `w × h` board bounding box at pitch `p`. -/
def rectBoardMatrix (w h p : ℤ) : ARMatrix := computeMatrixSize (emptyMatrix p) ⟨0, 0, w, h⟩

/-- Closed rectangular board outline of width `w` and height `h`, origin `(0,0)`. -/
def rectOutline (w h : ℤ) : List Pt := [⟨0, 0⟩, ⟨w, 0⟩, ⟨w, h⟩, ⟨0, h⟩]

lemma takeWhile_all {α : Type} (p : α → Bool) :
    ∀ l : List α, (∀ x ∈ l, p x = true) → l.takeWhile p = l := by
  intro l h
  induction l with
  | nil => rfl
  | cons a as ih =>
    rw [List.takeWhile_cons, if_pos (h a (List.mem_cons_self a as))]
    rw [ih (fun x hx => h x (List.mem_cons_of_mem a hx))]

lemma ceilDivInt_mul_lt {a p : ℤ} (hp : 0 < p) (ha : 0 < a) :
    (ceilDivInt a p - 1) * p < a := by
  have hnum : (0 : ℤ) ≤ a + p - 1 := by omega
  have heq : ceilDivInt a p = (a + p - 1) / p :=
    Int.tdiv_eq_ediv hnum (le_of_lt hp)
  have hle : (a + p - 1) / p * p ≤ a + p - 1 := Int.ediv_mul_le _ (ne_of_gt hp)
  have : (ceilDivInt a p - 1) * p = ceilDivInt a p * p - p := by ring
  rw [this, heq]
  omega

lemma ceilDivInt_pos {a p : ℤ} (hp : 0 < p) (ha : 0 < a) : 0 < ceilDivInt a p := by
  have hnum : (0 : ℤ) ≤ a + p - 1 := by omega
  have heq : ceilDivInt a p = (a + p - 1) / p :=
    Int.tdiv_eq_ediv hnum (le_of_lt hp)
  have hlt : a + p - 1 < ((a + p - 1) / p + 1) * p := Int.lt_ediv_add_one_mul_self _ hp
  rw [heq]
  nlinarith [hlt]

lemma chainBBox_rect {w h : ℤ} (hw : 0 < w) (hh : 0 < h) :
    chainBBox (rectOutline w h) = ⟨0, 0, w, h⟩ := by
  simp only [chainBBox, rectOutline, List.map_cons, List.map_nil, List.foldl_cons,
    List.foldl_nil]
  have h1 : min (min (min 0 w) w) 0 = (0 : ℤ) := by omega
  have h2 : min (min (min 0 0) h) h = (0 : ℤ) := by omega
  have h3 : max (max (max 0 w) w) 0 = w := by omega
  have h4 : max (max (max 0 0) h) h = h := by omega
  rw [h1, h2, h3, h4]
  simp

lemma crossings_rect {w h refy : ℤ} (hh : 0 < h) (h0 : 0 < refy) (hlt : refy < h) :
    crossings (rectOutline w h) refy = [w, 0] := by
  have e1 : ¬((0:ℤ) > refy ∧ (0:ℤ) > refy) := by omega
  have e1b : ((0:ℤ) ≤ refy ∧ (0:ℤ) ≤ refy) := by omega
  have e2 : ¬((0:ℤ) > refy ∧ h > refy) := by omega
  have e2b : ¬((0:ℤ) ≤ refy ∧ h ≤ refy) := by omega
  have e2c : ¬(h - 0 = (0:ℤ)) := by omega
  have e3 : (h > refy ∧ h > refy) := by omega
  have e4 : ¬(h > refy ∧ (0:ℤ) > refy) := by omega
  have e4b : ¬(h ≤ refy ∧ (0:ℤ) ≤ refy) := by omega
  have e4c : ¬((0:ℤ) - h = 0) := by omega
  have f1 : ¬(refy < 0) := by omega
  have f2 : ¬(h ≤ refy) := by omega
  have f3 : ¬(h = 0) := by omega
  simp only [crossings, rectOutline, List.length_cons, List.length_nil]
  norm_num [List.filterMap, edgeCrossing, List.getD, e1, e1b, e2, e2b, e2c, e3, e4, e4b, e4c,
    f1, f2, f3]

lemma sortInts_pair {w : ℤ} (hw : 0 ≤ w) : sortInts [w, 0] = [0, w] := by
  by_cases h : w ≤ 0
  · have : w = 0 := le_antisymm h hw
    subst this
    simp [sortInts, insertSorted]
  · simp [sortInts, insertSorted, h]

lemma fillCols_rect {w p ncols : ℤ} (hp : 0 < p) (hw : 0 < w)
    (hcols : ∀ i : ℕ, (i : ℤ) < ncols → (i : ℤ) * p ≤ w) :
    fillCols p ncols 0 w = (List.range ncols.toNat).map (fun i : ℕ => (i : ℤ)) := by
  have hz : (0 : ℤ).tdiv p = 0 := Int.zero_tdiv p
  have hta : ∀ x ∈ (List.range ncols.toNat).map (fun i : ℕ => (i : ℤ)),
      decide (x * p ≤ w) = true := by
    intro x hx
    simp only [List.mem_map, List.mem_range] at hx
    obtain ⟨i, hi, rfl⟩ := hx
    simp only [decide_eq_true_eq]
    exact hcols i (by omega)
  have hfa : ∀ x ∈ (List.range ncols.toNat).map (fun i : ℕ => (i : ℤ)),
      decide ((0 : ℤ) ≤ x * p) = true := by
    intro x hx
    simp only [List.mem_map, List.mem_range] at hx
    obtain ⟨i, hi, rfl⟩ := hx
    simp only [decide_eq_true_eq]
    exact mul_nonneg (Int.natCast_nonneg i) (le_of_lt hp)
  have hn : ((ncols - (0 : ℤ).tdiv p)).toNat = ncols.toNat := by rw [hz, sub_zero]
  have hf : (fun i : ℕ => (0 : ℤ).tdiv p + (i : ℤ)) = fun i : ℕ => (i : ℤ) := by
    funext i
    rw [hz, zero_add]
  unfold fillCols
  rw [hn, hf, takeWhile_all _ _ hta, List.filter_eq_self.mpr hfa]

lemma fillMatrixRows_rect {w h p : ℤ} (hp : 0 < p) (hw : 0 < w) (hh : 0 < h) :
    ∀ is : List ℕ, (∀ i ∈ is, (i : ℤ) < ceilDivInt h p) →
      fillMatrixRows (rectBoardMatrix w h p) (rectOutline w h) ⟨0, 0⟩
          (is.map (fun i : ℕ => (0 : ℤ) + p * (i : ℤ))) =
        (true, (is.filter (fun i => decide (0 < i))).flatMap
          (fun k => ((List.range (ceilDivInt w p).toNat).map (fun c : ℕ => (c : ℤ))).map
            (fun c => ((k : ℤ), c)))) := by
  have hcols : ∀ j : ℕ, (j : ℤ) < ceilDivInt w p → (j : ℤ) * p ≤ w := by
    intro j hj
    have h2 : ((j : ℤ)) ≤ ceilDivInt w p - 1 := by omega
    have h3 : (ceilDivInt w p - 1) * p < w := ceilDivInt_mul_lt hp hw
    nlinarith [mul_le_mul_of_nonneg_right h2 (le_of_lt hp)]
  have hrows : ∀ i : ℕ, (i : ℤ) < ceilDivInt h p → p * (i : ℤ) < h := by
    intro i hi
    have h2 : ((i : ℤ)) ≤ ceilDivInt h p - 1 := by omega
    have h3 : (ceilDivInt h p - 1) * p < h := ceilDivInt_mul_lt hp hh
    nlinarith [mul_le_mul_of_nonneg_right h2 (le_of_lt hp)]
  intro is
  induction is with
  | nil => intro _; simp [fillMatrixRows]
  | cons i rest ih =>
    intro hmem
    have hi : (i : ℤ) < ceilDivInt h p := hmem i (List.mem_cons_self i rest)
    have hidy : (((0 : ℤ) + p * (i : ℤ)) - (0 : ℤ)).tdiv p = (i : ℤ) := by
      rw [zero_add, sub_zero, Int.mul_tdiv_cancel_left _ (ne_of_gt hp)]
    have hm1 : (rectBoardMatrix w h p).nrows = ceilDivInt h p := rfl
    have hm2 : (rectBoardMatrix w h p).ncols = ceilDivInt w p := rfl
    have hm3 : (rectBoardMatrix w h p).gridRouting = p := rfl
    have hnolim : ¬ ((((0 : ℤ) + p * (i : ℤ)) - (0 : ℤ)).tdiv (rectBoardMatrix w h p).gridRouting
        ≥ (rectBoardMatrix w h p).nrows) := by
      rw [hm1, hm3, hidy]
      omega
    by_cases hzero : i = 0
    · subst hzero
      have hskip : (((0 : ℤ) + p * ((0 : ℕ) : ℤ)) - (0 : ℤ)).tdiv
          (rectBoardMatrix w h p).gridRouting ≤ 0 := by
        rw [hm3, hidy]
        simp
      rw [List.map_cons,
        show fillMatrixRows (rectBoardMatrix w h p) (rectOutline w h) ⟨0, 0⟩
            (((0 : ℤ) + p * ((0 : ℕ) : ℤ)) :: rest.map (fun i : ℕ => (0 : ℤ) + p * (i : ℤ))) =
          fillMatrixRows (rectBoardMatrix w h p) (rectOutline w h) ⟨0, 0⟩
            (rest.map (fun i : ℕ => (0 : ℤ) + p * (i : ℤ))) by
          simp only [fillMatrixRows, if_neg hnolim, if_pos hskip]]
      rw [ih (fun j hj => hmem j (List.mem_cons_of_mem _ hj))]
      simp [List.filter_cons]
    · have hipos : 0 < i := Nat.pos_of_ne_zero hzero
      have hrefy0 : (0 : ℤ) < (0 : ℤ) + p * (i : ℤ) := by
        rw [zero_add]
        positivity
      have hrefyh : (0 : ℤ) + p * (i : ℤ) < h := by
        rw [zero_add]
        exact hrows i hi
      have hskip : ¬ ((((0 : ℤ) + p * (i : ℤ)) - (0 : ℤ)).tdiv
          (rectBoardMatrix w h p).gridRouting ≤ 0) := by
        rw [hm3, hidy]
        omega
      have hcross : crossings (rectOutline w h) ((0 : ℤ) + p * (i : ℤ)) = [w, 0] :=
        crossings_rect hh hrefy0 hrefyh
      have hsort : sortInts (crossings (rectOutline w h) ((0 : ℤ) + p * (i : ℤ))) = [0, w] := by
        rw [hcross]
        exact sortInts_pair (le_of_lt hw)
      have hlen : ¬ ((sortInts (crossings (rectOutline w h)
          ((0 : ℤ) + p * (i : ℤ)))).length % 2 = 1) := by
        rw [hsort]
        norm_num
      have hfill : fillCols p (ceilDivInt w p) ((0 : ℤ) - 0) (w - 0) =
          (List.range (ceilDivInt w p).toNat).map (fun c : ℕ => (c : ℤ)) := by
        rw [sub_zero, sub_zero]
        exact fillCols_rect hp hw hcols
      have hmarks : rowCellMarks (rectBoardMatrix w h p) (0 : ℤ) ((i : ℤ))
          (sortInts (crossings (rectOutline w h) ((0 : ℤ) + p * (i : ℤ)))) =
          ((List.range (ceilDivInt w p).toNat).map (fun c : ℕ => (c : ℤ))).map
            (fun c => ((i : ℤ), c)) := by
        rw [hsort]
        simp only [rowCellMarks, pairUp, List.flatMap_cons, List.flatMap_nil, List.append_nil,
          hm2, hm3]
        rw [hfill]
      rw [List.map_cons,
        show fillMatrixRows (rectBoardMatrix w h p) (rectOutline w h) ⟨0, 0⟩
            (((0 : ℤ) + p * (i : ℤ)) :: rest.map (fun i : ℕ => (0 : ℤ) + p * (i : ℤ))) =
          ((fillMatrixRows (rectBoardMatrix w h p) (rectOutline w h) ⟨0, 0⟩
              (rest.map (fun i : ℕ => (0 : ℤ) + p * (i : ℤ)))).1,
            rowCellMarks (rectBoardMatrix w h p) (0 : ℤ) ((i : ℤ))
                (sortInts (crossings (rectOutline w h) ((0 : ℤ) + p * (i : ℤ)))) ++
              (fillMatrixRows (rectBoardMatrix w h p) (rectOutline w h) ⟨0, 0⟩
                (rest.map (fun i : ℕ => (0 : ℤ) + p * (i : ℤ)))).2) by
          simp only [fillMatrixRows, if_neg hnolim, if_neg hskip, if_neg hlen]
          rw [show (((0 : ℤ) + p * (i : ℤ)) - (0 : ℤ)).tdiv
              (rectBoardMatrix w h p).gridRouting = (i : ℤ) by rw [hm3, hidy]]]
      rw [ih (fun j hj => hmem j (List.mem_cons_of_mem _ hj)), hmarks]
      simp [List.filter_cons, hipos]

lemma length_filter_pos_range (n : ℕ) :
    ((List.range n).filter (fun k => decide (0 < k))).length = n - 1 := by
  induction n with
  | zero => rfl
  | succ m ih =>
    rw [List.range_succ, List.filter_append, List.length_append, ih]
    by_cases hm : 0 < m
    · simp [hm]
      omega
    · simp [show m = 0 by omega]

/-- C7 (amended): rasterizing a `w × h` rectangular outline at pitch `p` marks
exactly the cells in rows `1 … ⌈h/p⌉ - 1` and columns `0 … ⌈w/p⌉ - 1` (the scanline
at the rectangle's top edge has row index 0 and is skipped; every later scanline
fills all `⌈w/p⌉` columns), for a total of `(⌈h/p⌉ - 1) × ⌈w/p⌉` cells — not
`⌊w/p⌋ × ⌊h/p⌋`. -/
theorem fillMatrix_rect_marks (w h p : ℤ) (hp : 0 < p) (hw : 0 < w) (hh : 0 < h) :
    fillMatrix (rectBoardMatrix w h p) (rectOutline w h) =
      (true, ((List.range (ceilDivInt h p).toNat).filter (fun k => decide (0 < k))).flatMap
        (fun k => (List.range (ceilDivInt w p).toNat).map (fun c : ℕ => ((k : ℤ), (c : ℤ))))) ∧
    (fillMatrix (rectBoardMatrix w h p) (rectOutline w h)).2.length =
      ((ceilDivInt h p).toNat - 1) * (ceilDivInt w p).toNat := by
  have hbb : chainBBox (rectOutline w h) = ⟨0, 0, w, h⟩ := chainBBox_rect hw hh
  have hcount : stepCount (0 : ℤ) ((0 : ℤ) + h) p = (ceilDivInt h p).toNat := by
    unfold stepCount ceilDivInt
    norm_num
  have horg : (rectBoardMatrix w h p).brdBox.origin = (⟨0, 0⟩ : Pt) := rfl
  have hmain : fillMatrix (rectBoardMatrix w h p) (rectOutline w h) =
      (true, ((List.range (ceilDivInt h p).toNat).filter (fun k => decide (0 < k))).flatMap
        (fun k => (List.range (ceilDivInt w p).toNat).map (fun c : ℕ => ((k : ℤ), (c : ℤ))))) := by
    have hg : (rectBoardMatrix w h p).gridRouting = p := rfl
    have hry : ({ x := 0, y := 0, w := w, h := h } : Rect).y = (0 : ℤ) := rfl
    have hrb : ({ x := 0, y := 0, w := w, h := h } : Rect).bottom = (0 : ℤ) + h := rfl
    simp only [fillMatrix, stepRange, hbb, horg, hg, hry, hrb, hcount]
    rw [fillMatrixRows_rect hp hw hh (List.range (ceilDivInt h p).toNat)
      (fun i hi => by
        simp only [List.mem_range] at hi
        omega)]
    simp only [List.map_map]
    rfl
  refine ⟨hmain, ?_⟩
  rw [hmain]
  simp only [List.length_flatMap, List.map_map]
  have hconst : ∀ k : ℕ, (List.length ∘ fun kk : ℕ =>
      (List.range (ceilDivInt w p).toNat).map (fun c : ℕ => ((kk : ℤ), (c : ℤ)))) k =
      (ceilDivInt w p).toNat := by
    intro k
    simp
  rw [List.map_congr_left (fun k _ => hconst k)]
  rw [List.map_const', List.sum_replicate, smul_eq_mul, length_filter_pos_range]


/-- C7 counterexample: a 2 mm × 2 mm board at 1 mm pitch.  The claim predicts
`⌊w/p⌋ × ⌊h/p⌋ = 2 × 2 = 4` marked cells; the rasterizer marks only the two cells
of row 1 (the scanline at the top edge has row index 0 and is skipped by
`if (idy <= 0) continue`, and each remaining scanline fills all `⌈w/p⌉` columns). -/
theorem fillMatrix_rect_count_counterexample :
    (fillMatrix (rectBoardMatrix 2000000 2000000 1000000)
        (rectOutline 2000000 2000000)).2.length = 2 ∧
    (fillMatrix (rectBoardMatrix 2000000 2000000 1000000)
        (rectOutline 2000000 2000000)).1 = true ∧
    ((2000000 : ℤ).tdiv 1000000).toNat * ((2000000 : ℤ).tdiv 1000000).toNat = 4 ∧
    (2 : ℕ) ≠ 4 := by
  refine ⟨by decide, by decide, by decide, by decide⟩

/-- Witness for the (amended) C7 theorem at the concrete 2 mm × 2 mm board. -/
theorem fillMatrix_rect_marks_witness :
    fillMatrix (rectBoardMatrix 2000000 2000000 1000000) (rectOutline 2000000 2000000) =
      (true, ((List.range (ceilDivInt 2000000 1000000).toNat).filter
          (fun k => decide (0 < k))).flatMap
        (fun k => (List.range (ceilDivInt 2000000 1000000).toNat).map
          (fun c : ℕ => ((k : ℤ), (c : ℤ))))) ∧
    (fillMatrix (rectBoardMatrix 2000000 2000000 1000000)
        (rectOutline 2000000 2000000)).2.length =
      ((ceilDivInt 2000000 1000000).toNat - 1) * (ceilDivInt 2000000 1000000).toNat :=
  fillMatrix_rect_marks 2000000 2000000 1000000 (by decide) (by decide) (by decide)

/-- Copper/technical layer of a board item. -/
inductive Layer
  | fcu
  | bcu
  | edgeCuts
  | other
deriving DecidableEq, Repr

/-- Terminal (KiCad `PAD`): offset from the footprint anchor at orientation 0, net
identifier, front/back copper membership, own clearance.
Modelled from the spec: the `PAD` class is not among the given sources; a terminal
carries "position and net identifier" plus layer membership. -/
structure Pad where
  basePos : Pt
  net : ℤ
  onFront : Bool
  onBack : Bool
  ownClearance : ℤ
deriving DecidableEq, Repr

/-- Placeable unit (KiCad `MODULE`): position, orientation (degrees × 10), side,
bounding box and pads at orientation 0, the 180°/90° rotation cost classes
(`GetPlacementCost180/90`, 0 = rotation forbidden … 10 = free), the
`needsPlaced`/`isPlaced` flags, the scratch counter set by `MODULE::SetFlag`, and
the unit's ratsnest edge count.
Modelled from the spec: the `MODULE` geometry accessors are not among the given
sources; geometry is derived from the orientation-0 data by exact quarter-turn
rotation (the engine only ever applies multiples of 90°).  `ratsEdges` models the
external connectivity provider's per-unit unconnected-edge count. -/
structure MODULE where
  pos : Pt
  orientation : ℤ
  layer : Layer
  baseBBox : Rect
  pads : List Pad
  cost180 : ℕ
  cost90 : ℕ
  needsPlaced : Bool
  isPlaced : Bool
  flag : ℕ
  ratsEdges : ℕ
deriving DecidableEq, Repr

/-- Quarter-turn count of an orientation given in decidegrees. -/
def quarterTurns (orient : ℤ) : ℤ := (orient.tdiv 900).emod 4

/-- Rotate a vector by `q` quarter turns (screen coordinates, y growing downward). -/
def rotQ (q : ℤ) (v : Pt) : Pt :=
  if q = 1 then ⟨v.y, -v.x⟩
  else if q = 2 then ⟨-v.x, -v.y⟩
  else if q = 3 then ⟨-v.y, v.x⟩
  else v

/-- World position of a pad (`PAD::GetPosition`). -/
def padWorldPos (fp : MODULE) (pad : Pad) : Pt :=
  fp.pos.add (rotQ (quarterTurns fp.orientation) pad.basePos)

/-- Normalized rectangle spanned by two opposite corners. -/
def rectFromCorners (a b : Pt) : Rect :=
  ⟨min a.x b.x, min a.y b.y, max a.x b.x - min a.x b.x, max a.y b.y - min a.y b.y⟩

/-- Footprint bounding rectangle in world coordinates (`MODULE::GetFootprintRect`;
`GetBoundingBox` after `CalculateBoundingBox` is modelled identically). -/
def footprintRect (fp : MODULE) : Rect :=
  let q := quarterTurns fp.orientation
  (rectFromCorners (rotQ q (Rect.origin fp.baseBBox)) (rotQ q (Rect.getEnd fp.baseBBox))).move
    fp.pos

/-- `MODULE::GetArea`: bounding-box area. -/
def moduleArea (fp : MODULE) : ℤ := (footprintRect fp).w * (footprintRect fp).h

/-- Fallback module for out-of-range indices (never reached in the runs studied). -/
def defaultModule : MODULE :=
  ⟨⟨0, 0⟩, 0, Layer.fcu, ⟨0, 0, 0, 0⟩, [], 0, 0, false, false, 0, 0⟩

/-- Graphic item of the board (`BOARD::Drawings`, `PCB_SHAPE`), reduced to the
data the autoplacer consults: its layer and a bounding segment. -/
structure Drawing where
  layer : Layer
  segA : Pt
  segB : Pt
deriving DecidableEq, Repr

/-- Board-level inputs of the engine: the footprint list (`BOARD::Footprints`,
mutated in place, identified here by list position), the edges bounding box
(`GetBoardEdgesBoundingBox`), the board outline polygon
(`GetBoardPolygonOutlines`) and the graphic items. -/
structure ARBoard where
  footprints : List MODULE
  edgesBBox : Rect
  outline : List Pt
  drawings : List Drawing

/-- Footprint by index. -/
def ARBoard.fp (bd : ARBoard) (i : ℕ) : MODULE := bd.footprints.getD i defaultModule

/-- Squared Euclidean distance between two points. -/
def distSq (a b : Pt) : ℤ := (a.x - b.x) ^ 2 + (a.y - b.y) ^ 2

/-- Candidate pads scanned by `AR_AUTOPLACER::nearestPad`, in iteration order:
every pad of every footprint other than the reference one whose position lies
inside the grid's board box, restricted to the reference net, nets with
non-positive identifiers excluded. -/
def nearestPadCandidates (bd : ARBoard) (brdBox : Rect) (refIdx : ℕ) (refNet : ℤ) : List Pt :=
  (bd.footprints.enum.filter (fun ifp =>
      decide (ifp.1 ≠ refIdx) && brdBox.contains ifp.2.pos)).flatMap
    (fun ifp =>
      (ifp.2.pads.filter (fun pad => decide (pad.net = refNet) && decide (0 < pad.net))).map
        (fun pad => padWorldPos ifp.2 pad))

/-- `AR_AUTOPLACER::nearestPad`: scan the candidates and keep the first at minimal
distance (the strict `dist < nearestDist` update).
Modelled from the spec detail: `VECTOR2I::EuclideanNorm` is external code;
"Euclidean distance" comparisons are modelled exactly by comparing squared
distances, and the `INT64_MAX` starting sentinel by an empty accumulator. -/
def nearestFold (refPos : Pt) (acc : Option Pt) (q : Pt) : Option Pt :=
  match acc with
  | none => some q
  | some b => if distSq refPos q < distSq refPos b then some q else acc

/-- `AR_AUTOPLACER::nearestPad`, continued: fold the update over the candidates
starting from the empty accumulator. -/
def nearestPad (bd : ARBoard) (brdBox : Rect) (refIdx : ℕ) (refPad : Pad) (offset : Pt) :
    Option Pt :=
  (nearestPadCandidates bd brdBox refIdx refPad.net).foldl
    (nearestFold ((padWorldPos (bd.fp refIdx) refPad).sub offset)) none

/-- First element of a list attaining the minimal value of `f` (the claim's
"nearest" pad, ties broken toward the first candidate found). -/
def firstMinOn {α : Type} (f : α → ℤ) : List α → Option α
  | [] => none
  | a :: as =>
    match firstMinOn f as with
    | none => some a
    | some b => if f b < f a then some b else some a

/-- Per-connection cost (the body of the pad loop of
`computePlacementRatsnestCost`): absolute coordinate deltas, swapped so that
`dx ≥ dy`, then `hypot(dx, dy*2.0)` with doubles idealized as reals. -/
noncomputable def connCost (s e : Pt) : ℝ :=
  let dx0 := |e.x - s.x|
  let dy0 := |e.y - s.y|
  let dx := if dx0 < dy0 then dy0 else dx0
  let dy := if dx0 < dy0 then dx0 else dy0
  Real.sqrt ((dx : ℝ) ^ 2 + ((dy : ℝ) * 2) ^ 2)

/-- `AR_AUTOPLACER::computePlacementRatsnestCost`: total over the unit's pads of
the connection cost from the offset pad to its nearest same-net pad; pads with no
neighbor contribute nothing. -/
noncomputable def computePlacementRatsnestCost (bd : ARBoard) (brdBox : Rect) (refIdx : ℕ)
    (offset : Pt) : ℝ :=
  (bd.fp refIdx).pads.foldl
    (fun acc pad =>
      match nearestPad bd brdBox refIdx pad offset with
      | none => acc
      | some np => acc + connCost ((padWorldPos (bd.fp refIdx) pad).sub offset) np)
    0

/-- The claim's formulation of the ratsnest cost: sum over the terminals, each
contributing `hypot(dx, 2·dy)` to the nearest same-net neighbor (first candidate
at minimal Euclidean distance over other on-board units, positive nets only), and
0 when it has no such neighbor. -/
noncomputable def ratsnestCostClaim (bd : ARBoard) (brdBox : Rect) (refIdx : ℕ)
    (offset : Pt) : ℝ :=
  ((bd.fp refIdx).pads.map (fun pad =>
    match firstMinOn (distSq ((padWorldPos (bd.fp refIdx) pad).sub offset))
        (nearestPadCandidates bd brdBox refIdx pad.net) with
    | none => 0
    | some np => connCost ((padWorldPos (bd.fp refIdx) pad).sub offset) np)).sum

/-- The better of a stored best point and an optional challenger under `f`
(the challenger wins only when strictly smaller). -/
def better {α : Type} (f : α → ℤ) (b : α) : Option α → α
  | none => b
  | some c => if f c < f b then c else b

lemma firstMinOn_cons {α : Type} (f : α → ℤ) (a : α) (l : List α) :
    firstMinOn f (a :: l) = some (better f a (firstMinOn f l)) := by
  cases h : firstMinOn f l with
  | none => simp [firstMinOn, h, better]
  | some c =>
    simp only [firstMinOn, h, better]
    split <;> rfl

lemma foldl_nearestFold (refPos : Pt) (l : List Pt) (b : Pt) :
    l.foldl (nearestFold refPos) (some b) =
      some (better (distSq refPos) b (firstMinOn (distSq refPos) l)) := by
  induction l generalizing b with
  | nil => simp [firstMinOn, better]
  | cons q rest ih =>
    rw [List.foldl_cons]
    show rest.foldl _ (if distSq refPos q < distSq refPos b then some q else some b) = _
    rw [firstMinOn_cons]
    have step : (if distSq refPos q < distSq refPos b then some q else some b) =
        some (if distSq refPos q < distSq refPos b then q else b) := by
      split <;> rfl
    rw [step, ih]
    cases hc : firstMinOn (distSq refPos) rest with
    | none =>
      simp [better]
    | some c =>
      simp only [better]
      by_cases h1 : distSq refPos c < distSq refPos q <;>
        by_cases h2 : distSq refPos c < distSq refPos b <;>
          by_cases h3 : distSq refPos q < distSq refPos b <;>
            simp only [h1, h2, h3, if_true, if_false, ite_true, ite_false] <;>
              first
                | rfl
                | (exfalso; omega)
                | (rw [if_pos (by omega)])
                | (rw [if_neg (by omega)])

lemma nearestPad_eq_firstMin (bd : ARBoard) (brdBox : Rect) (refIdx : ℕ) (refPad : Pad)
    (offset : Pt) :
    nearestPad bd brdBox refIdx refPad offset =
      firstMinOn (distSq ((padWorldPos (bd.fp refIdx) refPad).sub offset))
        (nearestPadCandidates bd brdBox refIdx refPad.net) := by
  unfold nearestPad
  cases hl : nearestPadCandidates bd brdBox refIdx refPad.net with
  | nil => simp [firstMinOn]
  | cons q rest =>
    rw [List.foldl_cons]
    show rest.foldl _ (nearestFold _ none q) = _
    rw [show nearestFold ((padWorldPos (bd.fp refIdx) refPad).sub offset) none q = some q
      from rfl]
    rw [foldl_nearestFold ((padWorldPos (bd.fp refIdx) refPad).sub offset) rest q,
      firstMinOn_cons]

lemma foldl_add_match (g : Pad → Option Pt) (h : Pad → Pt → ℝ) (l : List Pad) (a : ℝ) :
    l.foldl
        (fun acc pad =>
          match g pad with
          | none => acc
          | some np => acc + h pad np)
        a =
      a + (l.map (fun pad =>
          match g pad with
          | none => (0 : ℝ)
          | some np => h pad np)).sum := by
  induction l generalizing a with
  | nil => simp
  | cons pad rest ih =>
    rw [List.foldl_cons, List.map_cons, List.sum_cons]
    cases hg : g pad with
    | none => rw [ih]; ring
    | some np => rw [ih]; ring

/-- C4: the ratsnest placement cost equals the claim's sum: over the unit's
terminals, each terminal with a nearest same-net neighbor (Euclidean distance,
over pads of other on-board units with the same positive net identifier; pads on
non-positive nets and pads without such a neighbor contribute nothing) adds
`hypot(dx, 2·dy)` with the absolute deltas swapped so that `dx ≥ dy`; and a unit
none of whose terminals has a neighbor has total cost 0. -/
theorem ratsnestCost_eq_claim (bd : ARBoard) (brdBox : Rect) (refIdx : ℕ) (offset : Pt) :
    computePlacementRatsnestCost bd brdBox refIdx offset =
      ratsnestCostClaim bd brdBox refIdx offset ∧
    ((∀ pad ∈ (bd.fp refIdx).pads, nearestPad bd brdBox refIdx pad offset = none) →
      computePlacementRatsnestCost bd brdBox refIdx offset = 0) := by
  have hmain : computePlacementRatsnestCost bd brdBox refIdx offset =
      ratsnestCostClaim bd brdBox refIdx offset := by
    unfold computePlacementRatsnestCost ratsnestCostClaim
    rw [foldl_add_match (fun pad => nearestPad bd brdBox refIdx pad offset)
      (fun pad np => connCost ((padWorldPos (bd.fp refIdx) pad).sub offset) np)]
    rw [zero_add]
    congr 1
    apply List.map_congr_left
    intro pad _
    rw [nearestPad_eq_firstMin]
  refine ⟨hmain, fun hall => ?_⟩
  rw [hmain]
  unfold ratsnestCostClaim
  have : ∀ pad ∈ (bd.fp refIdx).pads,
      (match firstMinOn (distSq ((padWorldPos (bd.fp refIdx) pad).sub offset))
          (nearestPadCandidates bd brdBox refIdx pad.net) with
        | none => (0 : ℝ)
        | some np => connCost ((padWorldPos (bd.fp refIdx) pad).sub offset) np) = 0 := by
    intro pad hmem
    have h1 := hall pad hmem
    rw [nearestPad_eq_firstMin] at h1
    rw [h1]
  rw [List.map_congr_left this]
  simp

/-- Witness for C4: a one-footprint board (no other unit exists, so no terminal has
a neighbor) has ratsnest cost 0, via the theorem itself. -/
theorem ratsnestCost_eq_claim_witness :
    computePlacementRatsnestCost
      ⟨[{ defaultModule with pads := [⟨⟨0, 0⟩, 1, true, false, 0⟩] }], ⟨0, 0, 1000000, 1000000⟩,
        [], []⟩ ⟨0, 0, 1000000, 1000000⟩ 0 ⟨0, 0⟩ = 0 :=
  (ratsnestCost_eq_claim
      ⟨[{ defaultModule with pads := [⟨⟨0, 0⟩, 1, true, false, 0⟩] }], ⟨0, 0, 1000000, 1000000⟩,
        [], []⟩ ⟨0, 0, 1000000, 1000000⟩ 0 ⟨0, 0⟩).2
    (by decide)

/-- Integer square of the connection cost before the square root: the swapped
deltas give `max² + (2·min)²`. -/
def gInt (a b : ℤ) : ℤ :=
  (if a < b then b else a) ^ 2 + ((if a < b then a else b) * 2) ^ 2

lemma connCost_eq_sqrt (s e : Pt) :
    connCost s e = Real.sqrt ((gInt |e.x - s.x| |e.y - s.y| : ℤ) : ℝ) := by
  simp only [connCost, gInt]
  by_cases h : |e.x - s.x| < |e.y - s.y|
  · rw [if_pos h, if_pos h]
    congr 1
    push_cast
    ring
  · rw [if_neg h, if_neg h]
    congr 1
    push_cast
    ring

lemma gInt_comm (a b : ℤ) : gInt a b = gInt b a := by
  unfold gInt
  rcases lt_trichotomy a b with h | h | h
  · rw [if_pos h, if_pos h, if_neg (by omega), if_neg (by omega)]
  · subst h
    rfl
  · rw [if_neg (by omega), if_neg (by omega), if_pos h, if_pos h]

lemma gInt_nonneg (a b : ℤ) : 0 ≤ gInt a b := by
  unfold gInt
  positivity

lemma gInt_mono {a1 a2 b : ℤ} (h0 : 0 ≤ a1) (hb : 0 ≤ b) (h : a1 < a2) :
    gInt a1 b < gInt a2 b := by
  unfold gInt
  by_cases h1 : a1 < b <;> by_cases h2 : a2 < b
  · rw [if_pos h1, if_pos h1, if_pos h2, if_pos h2]
    nlinarith
  · rw [if_pos h1, if_pos h1, if_neg h2, if_neg h2]
    nlinarith
  · exfalso
    omega
  · rw [if_neg h1, if_neg h1, if_neg h2, if_neg h2]
    nlinarith

/-- C8: moving a connected terminal directly away from its nearest neighbor along
either coordinate axis (the other delta held fixed) strictly increases the
connection cost, and placing the terminal on the neighbor gives cost exactly 0. -/
theorem connCost_axis_monotone (q : Pt) (c d1 d2 : ℤ) (h : |d1| < |d2|) :
    connCost ⟨q.x + d1, q.y + c⟩ q < connCost ⟨q.x + d2, q.y + c⟩ q ∧
    connCost ⟨q.x + c, q.y + d1⟩ q < connCost ⟨q.x + c, q.y + d2⟩ q ∧
    connCost q q = 0 := by
  have habs : ∀ d : ℤ, |q.x - (q.x + d)| = |d| := by
    intro d
    rw [show q.x - (q.x + d) = -d by ring, abs_neg]
  have habsy : ∀ d : ℤ, |q.y - (q.y + d)| = |d| := by
    intro d
    rw [show q.y - (q.y + d) = -d by ring, abs_neg]
  have sqrt_mono : ∀ u v : ℤ, 0 ≤ u → u < v →
      Real.sqrt ((u : ℤ) : ℝ) < Real.sqrt ((v : ℤ) : ℝ) := by
    intro u v hu huv
    apply Real.sqrt_lt_sqrt
    · exact_mod_cast hu
    · exact_mod_cast huv
  refine ⟨?_, ?_, ?_⟩
  · rw [connCost_eq_sqrt, connCost_eq_sqrt]
    show Real.sqrt ((gInt |q.x - (q.x + d1)| |q.y - (q.y + c)| : ℤ) : ℝ) <
      Real.sqrt ((gInt |q.x - (q.x + d2)| |q.y - (q.y + c)| : ℤ) : ℝ)
    rw [habs d1, habs d2]
    exact sqrt_mono _ _ (gInt_nonneg _ _) (gInt_mono (abs_nonneg d1) (abs_nonneg _) h)
  · rw [connCost_eq_sqrt, connCost_eq_sqrt]
    show Real.sqrt ((gInt |q.x - (q.x + c)| |q.y - (q.y + d1)| : ℤ) : ℝ) <
      Real.sqrt ((gInt |q.x - (q.x + c)| |q.y - (q.y + d2)| : ℤ) : ℝ)
    rw [habsy d1, habsy d2, gInt_comm _ |d1|, gInt_comm _ |d2|]
    exact sqrt_mono _ _ (gInt_nonneg _ _) (gInt_mono (abs_nonneg d1) (abs_nonneg _) h)
  · rw [connCost_eq_sqrt]
    rw [show q.x - q.x = (0:ℤ) by ring, show q.y - q.y = (0:ℤ) by ring]
    rw [show |(0:ℤ)| = 0 from rfl]
    rw [show gInt 0 0 = 0 from rfl]
    simp

/-- Witness for C8 at a concrete neighbor and deltas. -/
theorem connCost_axis_monotone_witness :
    connCost ⟨(0 : ℤ) + 1, (0 : ℤ) + 0⟩ ⟨0, 0⟩ < connCost ⟨(0 : ℤ) + 2, (0 : ℤ) + 0⟩ ⟨0, 0⟩ ∧
    connCost ⟨(0 : ℤ) + 0, (0 : ℤ) + 1⟩ ⟨0, 0⟩ < connCost ⟨(0 : ℤ) + 0, (0 : ℤ) + 2⟩ ⟨0, 0⟩ ∧
    connCost ⟨0, 0⟩ ⟨0, 0⟩ = 0 :=
  connCost_axis_monotone ⟨0, 0⟩ 0 1 2 (by decide)

/-- Result of `AR_AUTOPLACER::getOptimalFPPlacement`: the returned error code, the
final value of the shared cursor `m_curPosition` (the loop's `lastPosOK`), and the
stored `m_minCost`. -/
structure OptResult where
  error : ℤ
  pos : Pt
  minCost : ℝ

/-- Footprint bounding rectangle moved by `-fpPos`, i.e. relative to the footprint
position. -/
def fpRelBBox (fp : MODULE) : Rect := (footprintRect fp).move fp.pos.neg

/-- Starting corner of the placement search: board box origin minus the relative
bounding-box origin, snapped onto the routing grid with the C `%` remainder. -/
def optInitialPos (m : ARMatrix) (fp : MODULE) : Pt :=
  let ip := m.brdBox.origin.sub (Rect.origin (fpRelBBox fp))
  ⟨ip.x - ip.x.tmod m.gridRouting, ip.y - ip.y.tmod m.gridRouting⟩

/-- Exclusive upper limits of the two search loops: board box end minus the
relative bounding-box end. -/
def optXYLimit (m : ARMatrix) (fp : MODULE) : Pt :=
  (m.brdBox.getEnd).sub (Rect.getEnd (fpRelBBox fp))

/-- Whether the opposite board side must also be tested: more than one routing
layer and at least one pad reaching the opposite copper layer. -/
def optTestOtherSide (m : ARMatrix) (fp : MODULE) : Bool :=
  decide (m.layersCount > 1) &&
    fp.pads.any (fun pad => if fp.layer = Layer.bcu then pad.onFront else pad.onBack)

/-- `AR_AUTOPLACER::testFootprintOnBoard`: test the footprint rectangle moved by
`-offset` on its own side, optionally on the other side, and if legal return the
keep-out cost of the rectangle inflated by the pad-count-scaled margin (the
`buildFpAreas` call only maintains the visualization-only free-area polygons and
has no bearing on the verdict, spec 4.3). -/
def testFootprintOnBoard (bd : ARBoard) (m : ARMatrix) (refIdx : ℕ) (tstOtherSide : Bool)
    (offset : Pt) : ℤ :=
  let fp := bd.fp refIdx
  let side := if fp.layer = Layer.bcu then arSideBottom else arSideTop
  let otherside := if fp.layer = Layer.bcu then arSideTop else arSideBottom
  let fpBBox := (footprintRect fp).move offset.neg
  let diag := testRectangle m fpBBox side
  if diag ≠ arFreeCell then diag
  else
    let diag2 := if tstOtherSide then testRectangle m fpBBox otherside else arFreeCell
    if diag2 ≠ arFreeCell then diag2
    else
      let marge := (m.gridRouting * (fp.pads.length : ℤ)).tdiv arGain
      (calculateKeepOutArea m (fpBBox.inflate marge) side : ℤ)

/-- Verdict (negative) or keep-out cost (non-negative) of one trial position `c`:
the loop body's `testFootprintOnBoard` call at offset `fpPos - c`. -/
def candVerdict (bd : ARBoard) (m : ARMatrix) (refIdx : ℕ) (c : Pt) : ℤ :=
  testFootprintOnBoard bd m refIdx (optTestOtherSide m (bd.fp refIdx))
    ((bd.fp refIdx).pos.sub c)

/-- Whether a trial position is legal (`keepOutCost >= 0` in the source). -/
def candLegal (bd : ARBoard) (m : ARMatrix) (refIdx : ℕ) (c : Pt) : Bool :=
  decide (0 ≤ candVerdict bd m refIdx c)

/-- Combined score of a legal trial position: ratsnest cost plus keep-out cost. -/
noncomputable def candScore (bd : ARBoard) (m : ARMatrix) (refIdx : ℕ) (c : Pt) : ℝ :=
  computePlacementRatsnestCost bd m.brdBox refIdx ((bd.fp refIdx).pos.sub c) +
    (candVerdict bd m refIdx c : ℝ)

/-- Candidate positions in the enumeration order of the source: the x loop is the
OUTER loop (ascending from the snapped start while `x < xylimit.x`), the y loop
the inner one. -/
def fpCandidates (m : ARMatrix) (fp : MODULE) : List Pt :=
  (stepRange (optInitialPos m fp).x (optXYLimit m fp).x m.gridRouting).flatMap
    (fun x => (stepRange (optInitialPos m fp).y (optXYLimit m fp).y m.gridRouting).map
      (fun y => (⟨x, y⟩ : Pt)))

/-- Accumulator update of the candidate loop of `getOptimalFPPlacement`: on a
legal position clear the error flag and, when the score does not exceed the
stored minimum (or no minimum is stored yet, `min_cost < 0`), move `lastPosOK`
and the minimum to this candidate. -/
noncomputable def optFold (bd : ARBoard) (m : ARMatrix) (refIdx : ℕ)
    (acc : ℤ × Pt × ℝ) (c : Pt) : ℤ × Pt × ℝ :=
  let keepOut := candVerdict bd m refIdx c
  if 0 ≤ keepOut then
    let score := candScore bd m refIdx c
    if acc.2.2 ≥ score ∨ acc.2.2 < 0 then (0, c, score) else (0, acc.2.1, acc.2.2)
  else acc

/-- `AR_AUTOPLACER::getOptimalFPPlacement`: scan every candidate with `lastPosOK`
initialized to the board box origin and `min_cost = -1`, and return the error
flag, final cursor and stored minimum. -/
noncomputable def getOptimalFPPlacement (bd : ARBoard) (m : ARMatrix) (refIdx : ℕ) : OptResult :=
  let r := (fpCandidates m (bd.fp refIdx)).foldl (optFold bd m refIdx)
    (1, m.brdBox.origin, -1)
  ⟨r.1, r.2.1, r.2.2⟩

/-- Last element of a list attaining the minimal value of `f` (ties broken toward
the LAST element). -/
noncomputable def lastMinOn {α : Type} (f : α → ℝ) : List α → Option α
  | [] => none
  | a :: as =>
    match lastMinOn f as with
    | none => some a
    | some b => if f b ≤ f a then some b else some a

/-- Better of a stored element and an optional challenger under `f`, the
challenger winning also on ties. -/
noncomputable def betterLast {α : Type} (f : α → ℝ) (b : α) : Option α → α
  | none => b
  | some c => if f c ≤ f b then c else b

/-- First element of a list attaining the minimal value of `f : α → ℝ` (ties kept
at the first). -/
noncomputable def firstMinOnR {α : Type} (f : α → ℝ) : List α → Option α
  | [] => none
  | a :: as =>
    match firstMinOnR f as with
    | none => some a
    | some b => if f b < f a then some b else some a

lemma lastMinOn_cons {α : Type} (f : α → ℝ) (a : α) (l : List α) :
    lastMinOn f (a :: l) = some (betterLast f a (lastMinOn f l)) := by
  cases h : lastMinOn f l with
  | none => simp [lastMinOn, h, betterLast]
  | some c =>
    simp only [lastMinOn, h, betterLast]
    split <;> rfl

lemma ratsnestCost_nonneg (bd : ARBoard) (brdBox : Rect) (refIdx : ℕ) (offset : Pt) :
    0 ≤ computePlacementRatsnestCost bd brdBox refIdx offset := by
  unfold computePlacementRatsnestCost
  have step : ∀ (l : List Pad) (a : ℝ), 0 ≤ a →
      0 ≤ l.foldl
        (fun acc pad =>
          match nearestPad bd brdBox refIdx pad offset with
          | none => acc
          | some np => acc + connCost ((padWorldPos (bd.fp refIdx) pad).sub offset) np)
        a := by
    intro l
    induction l with
    | nil => intro a ha; simpa using ha
    | cons pad rest ih =>
      intro a ha
      rw [List.foldl_cons]
      cases hg : nearestPad bd brdBox refIdx pad offset with
      | none => exact ih a ha
      | some np =>
        apply ih
        have hcc : 0 ≤ connCost ((padWorldPos (bd.fp refIdx) pad).sub offset) np := by
          rw [connCost_eq_sqrt]
          exact Real.sqrt_nonneg _
        show 0 ≤ a + connCost ((padWorldPos (bd.fp refIdx) pad).sub offset) np
        linarith
  exact step _ 0 le_rfl

lemma candScore_nonneg {bd : ARBoard} {m : ARMatrix} {refIdx : ℕ} {c : Pt}
    (h : candLegal bd m refIdx c = true) : 0 ≤ candScore bd m refIdx c := by
  unfold candScore
  have h1 : (0 : ℤ) ≤ candVerdict bd m refIdx c := by
    simpa [candLegal] using h
  have h2 : (0 : ℝ) ≤ (candVerdict bd m refIdx c : ℝ) := by exact_mod_cast h1
  have h3 := ratsnestCost_nonneg bd m.brdBox refIdx ((bd.fp refIdx).pos.sub c)
  linarith

lemma betterLast_le {α : Type} (f : α → ℝ) (b : α) (o : Option α) :
    f (betterLast f b o) ≤ f b := by
  cases o with
  | none => simp [betterLast]
  | some c =>
    simp only [betterLast]
    split
    · assumption
    · exact le_rfl

lemma betterLast_some {α : Type} (f : α → ℝ) (b x : α) :
    betterLast f b (some x) = if f x ≤ f b then x else b := rfl

lemma optFold_from_best (bd : ARBoard) (m : ARMatrix) (refIdx : ℕ) :
    ∀ (l : List Pt) (b : Pt), 0 ≤ candScore bd m refIdx b →
      l.foldl (optFold bd m refIdx) (0, b, candScore bd m refIdx b) =
        (0, betterLast (candScore bd m refIdx) b
              (lastMinOn (candScore bd m refIdx) (l.filter (candLegal bd m refIdx))),
          candScore bd m refIdx (betterLast (candScore bd m refIdx) b
              (lastMinOn (candScore bd m refIdx) (l.filter (candLegal bd m refIdx))))) := by
  intro l
  induction l with
  | nil =>
    intro b hb
    simp [lastMinOn, betterLast]
  | cons c rest ih =>
    intro b hb
    rw [List.foldl_cons, List.filter_cons]
    by_cases hl : candLegal bd m refIdx c = true
    · have h0 : (0 : ℤ) ≤ candVerdict bd m refIdx c := by simpa [candLegal] using hl
      have hnotneg : ¬ (candScore bd m refIdx b < 0) := not_lt.mpr hb
      have hstep : optFold bd m refIdx (0, b, candScore bd m refIdx b) c =
          if candScore bd m refIdx c ≤ candScore bd m refIdx b
          then (0, c, candScore bd m refIdx c) else (0, b, candScore bd m refIdx b) := by
        unfold optFold
        rw [if_pos h0]
        by_cases hcmp : candScore bd m refIdx c ≤ candScore bd m refIdx b
        · rw [if_pos (Or.inl hcmp), if_pos hcmp]
        · rw [if_neg (fun hor => hor.elim hcmp hnotneg), if_neg hcmp]
      rw [hstep, if_pos hl, lastMinOn_cons]
      by_cases hcmp : candScore bd m refIdx c ≤ candScore bd m refIdx b
      · rw [if_pos hcmp, ih c (candScore_nonneg hl)]
        have hXb : candScore bd m refIdx
            (betterLast (candScore bd m refIdx) c
              (lastMinOn (candScore bd m refIdx) (rest.filter (candLegal bd m refIdx)))) ≤
            candScore bd m refIdx b :=
          le_trans (betterLast_le _ _ _) hcmp
        rw [betterLast_some, if_pos hXb]
      · rw [if_neg hcmp, ih b hb]
        have hbc : candScore bd m refIdx b < candScore bd m refIdx c := not_le.mp hcmp
        have hred : betterLast (candScore bd m refIdx) b
            (some (betterLast (candScore bd m refIdx) c
              (lastMinOn (candScore bd m refIdx) (rest.filter (candLegal bd m refIdx))))) =
            betterLast (candScore bd m refIdx) b
              (lastMinOn (candScore bd m refIdx) (rest.filter (candLegal bd m refIdx))) := by
          cases hfm : lastMinOn (candScore bd m refIdx) (rest.filter (candLegal bd m refIdx)) with
          | none =>
            rw [show betterLast (candScore bd m refIdx) c (none : Option Pt) = c from rfl,
              betterLast_some, if_neg (by linarith)]
            rfl
          | some d =>
            rw [show betterLast (candScore bd m refIdx) c (some d) =
                if candScore bd m refIdx d ≤ candScore bd m refIdx c then d else c from rfl]
            by_cases hdc : candScore bd m refIdx d ≤ candScore bd m refIdx c
            · rw [if_pos hdc, betterLast_some]
            · have hcd : candScore bd m refIdx c < candScore bd m refIdx d := not_le.mp hdc
              rw [if_neg hdc, betterLast_some, betterLast_some,
                if_neg (by linarith), if_neg (by linarith)]
        rw [hred]
    · have hv : ¬ ((0 : ℤ) ≤ candVerdict bd m refIdx c) := by
        simpa [candLegal] using hl
      rw [show optFold bd m refIdx (0, b, candScore bd m refIdx b) c =
          (0, b, candScore bd m refIdx b) by
        unfold optFold
        rw [if_neg hv]]
      rw [if_neg hl]
      exact ih b hb

lemma getOptimal_characterize (bd : ARBoard) (m : ARMatrix) (refIdx : ℕ) :
    getOptimalFPPlacement bd m refIdx =
      (match lastMinOn (candScore bd m refIdx)
          ((fpCandidates m (bd.fp refIdx)).filter (candLegal bd m refIdx)) with
        | none => (⟨1, m.brdBox.origin, -1⟩ : OptResult)
        | some b => ⟨0, b, candScore bd m refIdx b⟩) := by
  unfold getOptimalFPPlacement
  generalize fpCandidates m (bd.fp refIdx) = l
  induction l with
  | nil => simp [lastMinOn]
  | cons c rest ih =>
    rw [List.foldl_cons, List.filter_cons]
    by_cases hl : candLegal bd m refIdx c = true
    · have h0 : (0 : ℤ) ≤ candVerdict bd m refIdx c := by simpa [candLegal] using hl
      rw [show optFold bd m refIdx (1, m.brdBox.origin, -1) c =
          (0, c, candScore bd m refIdx c) by
        unfold optFold
        rw [if_pos h0, if_pos (Or.inr (by norm_num))]]
      rw [optFold_from_best bd m refIdx rest c (candScore_nonneg hl)]
      rw [if_pos hl, lastMinOn_cons]
    · have hv : ¬ ((0 : ℤ) ≤ candVerdict bd m refIdx c) := by
        simpa [candLegal] using hl
      rw [show optFold bd m refIdx (1, m.brdBox.origin, -1) c =
          (1, m.brdBox.origin, -1) by
        unfold optFold
        rw [if_neg hv]]
      rw [if_neg hl]
      exact ih

lemma lastMinOn_eq_none_iff {α : Type} (f : α → ℝ) (l : List α) :
    lastMinOn f l = none ↔ l = [] := by
  cases l with
  | nil => simp [lastMinOn]
  | cons a as =>
    simp only [lastMinOn]
    cases h : lastMinOn f as with
    | none => simp
    | some b =>
      constructor
      · intro hc
        by_cases hba : f b ≤ f a <;> simp [hba] at hc
      · intro hc
        exact absurd hc (List.cons_ne_nil a as)

lemma lastMinOn_mem {α : Type} (f : α → ℝ) (l : List α) (b : α)
    (h : lastMinOn f l = some b) : b ∈ l := by
  induction l generalizing b with
  | nil => simp [lastMinOn] at h
  | cons a as ih =>
    rw [lastMinOn_cons] at h
    have hb : betterLast f a (lastMinOn f as) = b := by injection h
    cases hm : lastMinOn f as with
    | none =>
      rw [hm] at hb
      rw [show betterLast f a (none : Option α) = a from rfl] at hb
      subst hb
      exact List.mem_cons_self a as
    | some c =>
      rw [hm, betterLast_some] at hb
      by_cases hca : f c ≤ f a
      · rw [if_pos hca] at hb
        subst hb
        exact List.mem_cons_of_mem a (ih c hm)
      · rw [if_neg hca] at hb
        subst hb
        exact List.mem_cons_self a as

/-- C10: `getOptimalFPPlacement` returns 0 exactly when some enumerated trial
position is legal, and 1 otherwise — never the abort sentinel
`AR_ABORT_PLACEMENT = -1`; and when it returns 1 the shared cursor is left at the
board bounding-box origin with the stored minimum cost still negative. -/
theorem getOptimal_error_spec (bd : ARBoard) (m : ARMatrix) (refIdx : ℕ) :
    ((getOptimalFPPlacement bd m refIdx).error = 0 ↔
      ∃ c ∈ fpCandidates m (bd.fp refIdx), candLegal bd m refIdx c = true) ∧
    ((getOptimalFPPlacement bd m refIdx).error = 0 ∨
      (getOptimalFPPlacement bd m refIdx).error = 1) ∧
    (getOptimalFPPlacement bd m refIdx).error ≠ arAbortPlacement ∧
    ((getOptimalFPPlacement bd m refIdx).error = 1 →
      (getOptimalFPPlacement bd m refIdx).pos = m.brdBox.origin ∧
      (getOptimalFPPlacement bd m refIdx).minCost < 0) := by
  rw [getOptimal_characterize]
  cases hm : lastMinOn (candScore bd m refIdx)
      ((fpCandidates m (bd.fp refIdx)).filter (candLegal bd m refIdx)) with
  | none =>
    have hnil : (fpCandidates m (bd.fp refIdx)).filter (candLegal bd m refIdx) = [] :=
      (lastMinOn_eq_none_iff _ _).mp hm
    have hnoleg : ¬ ∃ c ∈ fpCandidates m (bd.fp refIdx), candLegal bd m refIdx c = true := by
      intro ⟨c, hc, hleg⟩
      have : c ∈ (fpCandidates m (bd.fp refIdx)).filter (candLegal bd m refIdx) :=
        List.mem_filter.mpr ⟨hc, hleg⟩
      rw [hnil] at this
      exact absurd this (List.not_mem_nil c)
    refine ⟨by simpa using hnoleg, Or.inr rfl,
      show (1 : ℤ) ≠ arAbortPlacement by decide,
      fun _ => ⟨rfl, show (-1 : ℝ) < 0 by norm_num⟩⟩
  | some b =>
    have hmem : b ∈ (fpCandidates m (bd.fp refIdx)).filter (candLegal bd m refIdx) :=
      lastMinOn_mem _ _ _ hm
    have hex : ∃ c ∈ fpCandidates m (bd.fp refIdx), candLegal bd m refIdx c = true :=
      ⟨b, (List.mem_filter.mp hmem).1, (List.mem_filter.mp hmem).2⟩
    refine ⟨by simpa using hex, Or.inl rfl,
      show (0 : ℤ) ≠ arAbortPlacement by decide,
      fun hcon => absurd (show (0 : ℤ) = 1 from hcon) (by decide)⟩

/-- Witness for C10: the theorem applied to a concrete grid, board and index. -/
theorem getOptimal_error_spec_witness :
    ((getOptimalFPPlacement ⟨[defaultModule], ⟨0, 0, 0, 0⟩, [], []⟩ mixedMatrix 0).error = 0 ↔
      ∃ c ∈ fpCandidates mixedMatrix ((⟨[defaultModule], ⟨0, 0, 0, 0⟩, [], []⟩ : ARBoard).fp 0),
        candLegal ⟨[defaultModule], ⟨0, 0, 0, 0⟩, [], []⟩ mixedMatrix 0 c = true) ∧
    ((getOptimalFPPlacement ⟨[defaultModule], ⟨0, 0, 0, 0⟩, [], []⟩ mixedMatrix 0).error = 0 ∨
      (getOptimalFPPlacement ⟨[defaultModule], ⟨0, 0, 0, 0⟩, [], []⟩ mixedMatrix 0).error = 1) ∧
    (getOptimalFPPlacement ⟨[defaultModule], ⟨0, 0, 0, 0⟩, [], []⟩ mixedMatrix 0).error ≠
      arAbortPlacement ∧
    ((getOptimalFPPlacement ⟨[defaultModule], ⟨0, 0, 0, 0⟩, [], []⟩ mixedMatrix 0).error = 1 →
      (getOptimalFPPlacement ⟨[defaultModule], ⟨0, 0, 0, 0⟩, [], []⟩ mixedMatrix 0).pos =
        mixedMatrix.brdBox.origin ∧
      (getOptimalFPPlacement ⟨[defaultModule], ⟨0, 0, 0, 0⟩, [], []⟩ mixedMatrix 0).minCost < 0) :=
  getOptimal_error_spec ⟨[defaultModule], ⟨0, 0, 0, 0⟩, [], []⟩ mixedMatrix 0

/-- The committed position the claim predicts for the placement search: enumerate
the candidates row-major (y OUTER ascending, then x ascending) from the snapped
start, and keep the FIRST legal candidate of minimal score. -/
noncomputable def rowMajorFirstMin (bd : ARBoard) (m : ARMatrix) (refIdx : ℕ) : Option Pt :=
  firstMinOnR (candScore bd m refIdx)
    (((stepRange (optInitialPos m (bd.fp refIdx)).y (optXYLimit m (bd.fp refIdx)).y
        m.gridRouting).flatMap
      (fun y => (stepRange (optInitialPos m (bd.fp refIdx)).x (optXYLimit m (bd.fp refIdx)).x
          m.gridRouting).map
        (fun x => (⟨x, y⟩ : Pt)))).filter (candLegal bd m refIdx))

/-- C2 (amended): the search enumerates the grid-aligned candidates with x as the
OUTER loop and y as the inner loop (not row-major), and keeps the minimum score
with ties resolved toward the LAST candidate enumerated (the update fires on
`min_cost >= Score`); with no legal candidate the cursor stays at the board box
origin. -/
theorem getOptimal_pos_is_lastMin (bd : ARBoard) (m : ARMatrix) (refIdx : ℕ) :
    (getOptimalFPPlacement bd m refIdx).pos =
      (lastMinOn (candScore bd m refIdx)
        ((fpCandidates m (bd.fp refIdx)).filter (candLegal bd m refIdx))).getD
        m.brdBox.origin := by
  rw [getOptimal_characterize]
  cases hm : lastMinOn (candScore bd m refIdx)
      ((fpCandidates m (bd.fp refIdx)).filter (candLegal bd m refIdx)) with
  | none => rfl
  | some b => rfl

/-- 4-cell-square occupancy grid of a 4 mm × 4 mm board: rows 1–3 of columns 0–3
carry the board-zone flag on both sides (exactly what rasterizing the square
outline produces), nothing occupied, all keep-out costs zero. -/
def openMatrix4 : ARMatrix where
  gridRouting := 1000000
  nrows := 4
  ncols := 4
  brdBox := ⟨0, 0, 4000000, 4000000⟩
  layersCount := 2
  cell := fun r c _ =>
    if 1 ≤ r ∧ r ≤ 3 ∧ 0 ≤ c ∧ c ≤ 3 then ⟨false, false, false, false, true⟩ else Cell.empty
  dist := fun _ _ _ => 0

/-- A padless 2 mm × 2 mm front-side footprint at the origin, rotation free. -/
def squareFp : MODULE :=
  { defaultModule with
      baseBBox := ⟨0, 0, 2000000, 2000000⟩
      cost180 := 10
      cost90 := 10
      needsPlaced := true }

/-- Board holding only `squareFp` on the 4 mm × 4 mm outline. -/
def squareBoard : ARBoard :=
  ⟨[squareFp], ⟨0, 0, 4000000, 4000000⟩, rectOutline 4000000 4000000, []⟩

lemma squareRats : ∀ off : Pt,
    computePlacementRatsnestCost squareBoard openMatrix4.brdBox 0 off = 0 := fun _ => rfl

lemma squareScore : ∀ c : Pt, candLegal squareBoard openMatrix4 0 c = true →
    candScore squareBoard openMatrix4 0 c = ((candVerdict squareBoard openMatrix4 0 c : ℤ) : ℝ) := by
  intro c _
  unfold candScore
  rw [squareRats, zero_add]

/-- C2 counterexample: on the empty 4 mm board the padless 2 mm square has four
trial positions, of which `(0, 1 mm)` and `(1 mm, 1 mm)` are legal, both with
score 0.  The claim (row-major enumeration, ties keep the first found) predicts
`(0, 1 mm)`; the search commits `(1 mm, 1 mm)` — the last tied candidate of its
x-outer enumeration. -/
theorem getOptimal_order_tie_counterexample :
    (getOptimalFPPlacement squareBoard openMatrix4 0).pos = ⟨1000000, 1000000⟩ ∧
    rowMajorFirstMin squareBoard openMatrix4 0 = some ⟨0, 1000000⟩ ∧
    ((⟨1000000, 1000000⟩ : Pt) ≠ ⟨0, 1000000⟩) := by
  have hv1 : candVerdict squareBoard openMatrix4 0 ⟨0, 0⟩ = -2 := by decide
  have hv2 : candVerdict squareBoard openMatrix4 0 ⟨0, 1000000⟩ = 0 := by decide
  have hv3 : candVerdict squareBoard openMatrix4 0 ⟨1000000, 0⟩ = -2 := by decide
  have hv4 : candVerdict squareBoard openMatrix4 0 ⟨1000000, 1000000⟩ = 0 := by decide
  have hl1 : candLegal squareBoard openMatrix4 0 ⟨0, 0⟩ = false := by decide
  have hl2 : candLegal squareBoard openMatrix4 0 ⟨0, 1000000⟩ = true := by decide
  have hl3 : candLegal squareBoard openMatrix4 0 ⟨1000000, 0⟩ = false := by decide
  have hl4 : candLegal squareBoard openMatrix4 0 ⟨1000000, 1000000⟩ = true := by decide
  have hs2 : candScore squareBoard openMatrix4 0 ⟨0, 1000000⟩ = 0 := by
    rw [squareScore _ hl2, hv2]
    norm_num
  have hs4 : candScore squareBoard openMatrix4 0 ⟨1000000, 1000000⟩ = 0 := by
    rw [squareScore _ hl4, hv4]
    norm_num
  have hcand : fpCandidates openMatrix4 (squareBoard.fp 0) =
      [⟨0, 0⟩, ⟨0, 1000000⟩, ⟨1000000, 0⟩, ⟨1000000, 1000000⟩] := by decide
  have hfil : (fpCandidates openMatrix4 (squareBoard.fp 0)).filter
      (candLegal squareBoard openMatrix4 0) = [⟨0, 1000000⟩, ⟨1000000, 1000000⟩] := by
    rw [hcand]
    rw [List.filter_cons, List.filter_cons, List.filter_cons, List.filter_cons]
    rw [hl1, hl2, hl3, hl4]
    rfl
  have hlm : lastMinOn (candScore squareBoard openMatrix4 0)
      [⟨0, 1000000⟩, ⟨1000000, 1000000⟩] = some ⟨1000000, 1000000⟩ := by
    rw [lastMinOn_cons, lastMinOn_cons,
      show lastMinOn (candScore squareBoard openMatrix4 0) ([] : List Pt) = none from rfl,
      show betterLast (candScore squareBoard openMatrix4 0) ⟨1000000, 1000000⟩
        (none : Option Pt) = ⟨1000000, 1000000⟩ from rfl,
      betterLast_some, hs2, hs4, if_pos le_rfl]
  refine ⟨?_, ?_, by decide⟩
  · rw [getOptimal_characterize, hfil, hlm]
  · unfold rowMajorFirstMin
    have hrm : ((stepRange (optInitialPos openMatrix4 (squareBoard.fp 0)).y
        (optXYLimit openMatrix4 (squareBoard.fp 0)).y openMatrix4.gridRouting).flatMap
      (fun y => (stepRange (optInitialPos openMatrix4 (squareBoard.fp 0)).x
          (optXYLimit openMatrix4 (squareBoard.fp 0)).x openMatrix4.gridRouting).map
        (fun x => (⟨x, y⟩ : Pt)))) =
        [⟨0, 0⟩, ⟨1000000, 0⟩, ⟨0, 1000000⟩, ⟨1000000, 1000000⟩] := by decide
    rw [hrm]
    rw [List.filter_cons, List.filter_cons, List.filter_cons, List.filter_cons]
    rw [hl1, hl2, hl3, hl4]
    show firstMinOnR (candScore squareBoard openMatrix4 0)
      [⟨0, 1000000⟩, ⟨1000000, 1000000⟩] = some ⟨0, 1000000⟩
    simp only [firstMinOnR]
    rw [hs2, hs4, if_neg (lt_irrefl (0 : ℝ))]

/-- The `OrientationPenalty` table of `ar_autoplacer.cpp`: scale 2.0 at rotation
cost class 0 (rotation prohibited) down to 1.0 at class 10 (rotation free). -/
noncomputable def orientationPenalty (i : ℕ) : ℝ :=
  ([2.0, 1.9, 1.8, 1.7, 1.6, 1.5, 1.4, 1.3, 1.2, 1.1, 1.0] : List ℝ).getD i 1.0

/-- Sequential clamp of a C value to an interval, as the source writes it
(`if (v < lo) v = lo; if (v > hi) v = hi;`). -/
def cClamp (v lo hi : ℤ) : ℤ :=
  let v1 := if v < lo then lo else v
  if v1 > hi then hi else v1

/-- Sides addressed by a layer mask built from a footprint layer (the source sets
`F_Cu` and/or `B_Cu` only). -/
def layerSides (l : Layer) : List ℕ :=
  match l with
  | Layer.fcu => [arSideTop]
  | Layer.bcu => [arSideBottom]
  | _ => []

/-- Sides a pad reaches. -/
def padSides (pad : Pad) : List ℕ :=
  (if pad.onFront then [arSideTop] else []) ++ (if pad.onBack then [arSideBottom] else [])

/-- `AR_MATRIX::TraceFilledRectangle` in `WRITE_OR_CELL` mode.
Modelled from the spec: `ar_matrix.cpp` is not among the given sources; or the
given flags into every cell covering the rectangle on the given sides. -/
def traceFilledRectangle (m : ARMatrix) (ox oy fx fy : ℤ) (sides : List ℕ) (v : Cell) :
    ARMatrix :=
  let rg := matrixCellRange m ⟨ox, oy, fx - ox, fy - oy⟩
  { m with cell := fun r c s =>
      if s ∈ sides ∧ rg.1 ≤ r ∧ r ≤ rg.2.1 ∧ rg.2.2.1 ≤ c ∧ c ≤ rg.2.2.2
      then Cell.or (m.cell r c s) v else m.cell r c s }

/-- `AR_MATRIX::PlacePad`.
Modelled from the spec: "placeTerminalFootprint(terminal, flags, margin, mode)";
pads are modelled as points, so the traced area is the pad position inflated by
the margin, on the pad's sides. -/
def placePad (m : ARMatrix) (pos : Pt) (margin : ℤ) (sides : List ℕ) (v : Cell) : ARMatrix :=
  traceFilledRectangle m (pos.x - margin) (pos.y - margin) (pos.x + margin) (pos.y + margin)
    sides v

/-- `AR_MATRIX::CreateKeepOutRectangle`.
Modelled from the spec: "writes a monotonically increasing cost gradient into a
margin band around a rectangle so that positions farther from a just-placed unit
are preferred": every cell within `band` Chebyshev cell-distances of the
rectangle gains `band - distance` keep-out cost. -/
def createKeepOutRectangle (m : ARMatrix) (ox oy fx fy margin keepout : ℤ) (sides : List ℕ) :
    ARMatrix :=
  let rg := matrixCellRange m ⟨ox, oy, fx - ox, fy - oy⟩
  let band := (margin + keepout).tdiv m.gridRouting + 1
  { m with dist := fun r c s =>
      if s ∈ sides then
        let d := max (max (rg.1 - r) (r - rg.2.1)) (max (max (rg.2.2.1 - c) (c - rg.2.2.2)) 0)
        if d < band then m.dist r c s + (band - d).toNat else m.dist r c s
      else m.dist r c s }

/-- `AR_MATRIX::TraceSegmentPcb` for a non-outline graphic item.
Modelled from the spec: such obstacles are "traced as `hole | boardEdge` cells via
`traceSegment`"; the cells covering the segment's bounding rectangle receive the
flags on both sides. -/
def traceSegmentPcb (m : ARMatrix) (dr : Drawing) (v : Cell) : ARMatrix :=
  traceFilledRectangle m (min dr.segA.x dr.segB.x) (min dr.segA.y dr.segB.y)
    (max dr.segA.x dr.segB.x) (max dr.segA.y dr.segB.y) [arSideTop, arSideBottom] v

/-- `AR_AUTOPLACER::genModuleOnRoutingMatrix`: stamp an already-placed footprint
into the grid — its clamped, half-pitch-inflated bounding box as occupied cells,
its pads with their clearances, and the keep-out gradient around it (the
free-area polygon subtraction is visualization-only and omitted, spec 4.3). -/
def genModuleOnRoutingMatrix (bd : ARBoard) (m : ARMatrix) (i : ℕ) : ARMatrix :=
  let fp := bd.fp i
  let bb := (footprintRect fp).inflate (m.gridRouting.tdiv 2)
  let ox := cClamp bb.x m.brdBox.x m.brdBox.right
  let fx := cClamp bb.right m.brdBox.x m.brdBox.right
  let oy := cClamp bb.y m.brdBox.y m.brdBox.bottom
  let fy := cClamp bb.bottom m.brdBox.y m.brdBox.bottom
  let sides := layerSides fp.layer
  let m1 := traceFilledRectangle m ox oy fx fy sides ⟨false, true, false, false, false⟩
  let m2 := fp.pads.foldl
    (fun mm pad =>
      placePad mm (padWorldPos fp pad) (mm.gridRouting.tdiv 2 + pad.ownClearance)
        (padSides pad) ⟨false, true, false, false, false⟩)
    m1
  let margin := (m2.gridRouting * (fp.pads.length : ℤ)).tdiv arGain
  createKeepOutRectangle m2 ox oy fx fy margin arKeepoutMargin sides

/-- `AR_AUTOPLACER::genPlacementRoutingMatrix`: clear the grid, bail out (0) on a
degenerate board box, otherwise size the grid from the box, rasterize the outline
(its success flag is dropped, exactly as in the source), trace the non-outline
graphic items as obstacles and copy the bottom side onto the top side. -/
def genPlacementRoutingMatrix (bd : ARBoard) (m : ARMatrix) : ℤ × ARMatrix :=
  let m0 := { m with cell := fun _ _ _ => Cell.empty, dist := fun _ _ _ => 0 }
  let bbox := bd.edgesBBox
  if bbox.w = 0 ∨ bbox.h = 0 then (0, m0)
  else
    let m1 := { computeMatrixSize m0 bbox with layersCount := 2 }
    let fill := fillMatrix m1 bd.outline
    let m2 := fill.2.foldl
      (fun mm rc => mm.setCell rc.1 rc.2 arSideBottom ⟨false, false, false, false, true⟩) m1
    let m3 := bd.drawings.foldl
      (fun mm dr =>
        if dr.layer ≠ Layer.edgeCuts then
          traceSegmentPcb mm dr ⟨true, false, true, false, false⟩
        else mm)
      m2
    let m4 := { m3 with cell := fun r c s =>
        if s = arSideTop then m3.cell r c arSideBottom else m3.cell r c s }
    (1, m4)

/-- Mutate one footprint of a board in place. -/
def ARBoard.updateFp (bd : ARBoard) (i : ℕ) (f : MODULE → MODULE) : ARBoard :=
  { bd with footprints :=
      (bd.footprints.enum.map (fun jfp => if jfp.1 = i then f jfp.2 else jfp.2)) }

/-- `AR_AUTOPLACER::placeFootprint`: move the footprint (connectivity update is
external). -/
def placeFootprint (bd : ARBoard) (i : ℕ) (aPos : Pt) : ARBoard :=
  bd.updateFp i (fun fp => { fp with pos := aPos })

/-- `AR_AUTOPLACER::rotateFootprint`: set the orientation, incrementally or
absolutely (connectivity update is external). -/
def rotateFootprint (bd : ARBoard) (i : ℕ) (angle : ℤ) (incremental : Bool) : ARBoard :=
  bd.updateFp i (fun fp =>
    { fp with orientation := if incremental then fp.orientation + angle else angle })

/-- Stable insertion into a descending-sorted index list: insert before the first
strictly smaller key (`std::sort` with the source's `ff2 < ff1` comparators,
ties keeping the earlier element first). -/
def insertDesc (key : ℕ → ℤ) (a : ℕ) : List ℕ → List ℕ
  | [] => [a]
  | b :: bs => if key b < key a then a :: b :: bs else b :: insertDesc key a bs

/-- Stable descending sort by key. -/
def sortDesc (key : ℕ → ℤ) : List ℕ → List ℕ
  | [] => []
  | a :: as => insertDesc key a (sortDesc key as)

/-- `AR_AUTOPLACER::pickFootprint`: sort all footprints by area × pad count
(descending), clear every scratch flag, recompute the external ratsnest and store
each footprint's edge count in its flag, re-sort by area × flag, then return the
first footprint still needing placement whose flag is non-zero — falling back to
the last needing-placement footprint scanned when all flags are zero, and to none
when nothing needs placement.  Returns the picked index together with the board
(whose scratch flags were mutated).
The connectivity queries (`RecalculateRatsnest`, `GetRatsnestForComponent`) are
external; their per-unit edge count is the `ratsEdges` oracle field. -/
def pickFootprint (bd : ARBoard) : Option ℕ × ARBoard :=
  let idxs := List.range bd.footprints.length
  let sorted1 := sortDesc (fun i => moduleArea (bd.fp i) * ((bd.fp i).pads.length : ℤ)) idxs
  let bd1 := { bd with footprints := bd.footprints.map (fun fp : MODULE => { fp with flag := 0 }) }
  let bd2 := { bd1 with footprints := bd1.footprints.map (fun fp : MODULE => { fp with flag := fp.ratsEdges }) }
  let sorted2 := sortDesc (fun i => moduleArea (bd2.fp i) * ((bd2.fp i).flag : ℤ)) sorted1
  let scan := sorted2.foldl
    (fun (acc : Option ℕ × Option ℕ) i =>
      match acc.1 with
      | some _ => acc
      | none =>
        if (bd2.fp i).needsPlaced = false then acc
        else if (bd2.fp i).flag = 0 then (none, some i)
        else (some i, some i))
    (none, none)
  (scan.1.or scan.2, bd2)

/-- Mutable run state of one `AutoplaceFootprints` invocation: the board, the
grid, the shared cursor `m_curPosition`, the stored `m_minCost` and the
configured grid size. -/
structure RunState where
  board : ARBoard
  matrix : ARMatrix
  curPosition : Pt
  minCost : ℝ
  gridSize : ℤ

/-- One rotation trial block of the orchestrator (the 180°, 90° and 270° blocks
of the source are instances): if the rotation class allows it, rotate
incrementally by `angle`, re-run the placement search, scale the returned minimum
by the orientation penalty of the class, and either adopt this orientation (when
strictly better) or rotate back to the initial absolute orientation.
Returns (error, bestScore, bestRotation, state). -/
noncomputable def rotationTrial (st : RunState) (i : ℕ) (initialOrient : ℤ) (rotAllowed : ℕ)
    (angle : ℤ) (error : ℤ) (bestScore : ℝ) (bestRotation : ℤ) :
    ℤ × ℝ × ℤ × RunState :=
  if rotAllowed ≠ 0 then
    let bdr := rotateFootprint st.board i angle true
    let r := getOptimalFPPlacement bdr st.matrix i
    let mc := r.minCost * orientationPenalty rotAllowed
    let str := { st with board := bdr, curPosition := r.pos, minCost := mc }
    if bestScore > mc then (r.error, mc, angle, str)
    else (r.error, bestScore, bestRotation,
      { str with board := rotateFootprint str.board i initialOrient false })
  else (error, bestScore, bestRotation, st)

/-- The orientation-trial sequence of the orchestrator for one footprint: the
initial search, then the 180° block (guarded by the 180° cost class), then the
90° and 270° blocks (both guarded by the same 90° cost class variable), each
block skipped once `error` equals `AR_ABORT_PLACEMENT` (the source's `goto
end_of_tst`).  Returns (error, bestScore, bestRotation, state). -/
noncomputable def orientationTrials (st0 : RunState) (i : ℕ) : ℤ × ℝ × ℤ × RunState :=
  let initialOrient := (st0.board.fp i).orientation
  let r0 := getOptimalFPPlacement st0.board st0.matrix i
  let st1 := { st0 with curPosition := r0.pos, minCost := r0.minCost }
  let error := r0.error
  let bestScore := st1.minCost
  if error = arAbortPlacement then (error, bestScore, 0, st1)
  else
    let t180 := rotationTrial st1 i initialOrient (st1.board.fp i).cost180 1800
      error bestScore 0
    if t180.1 = arAbortPlacement then t180
    else
      let rot90 := (t180.2.2.2.board.fp i).cost90
      let t90 := rotationTrial t180.2.2.2 i initialOrient rot90 900 t180.1 t180.2.1 t180.2.2.1
      if t90.1 = arAbortPlacement then t90
      else rotationTrial t90.2.2.2 i initialOrient rot90 2700 t90.1 t90.2.1 t90.2.2.1

/-- Placement loop of `AutoplaceFootprints`: pick the next footprint, run the
orientation trials, break the whole loop on `AR_ABORT_PLACEMENT` (leaving the
footprint uncommitted), otherwise apply the best rotation if it differs from the
current orientation, move the footprint to the shared cursor, mark it placed,
stamp it into the grid and poll the cancellation callback.  The fuel only bounds
the recursion; each iteration clears one `needsPlaced` flag, so the footprint
count plus one suffices. -/
noncomputable def autoplaceLoop (keepGoing : ℕ → Bool) :
    ℕ → RunState → ℕ → Bool × RunState
  | 0, st, _ => (false, st)
  | fuel + 1, st, cnt =>
    match hpick : (pickFootprint st.board).1 with
    | none => (false, { st with board := (pickFootprint st.board).2 })
    | some i =>
      let stp := { st with board := (pickFootprint st.board).2 }
      let t := orientationTrials stp i
      if t.1 = arAbortPlacement then (false, t.2.2.2)
      else
        let st3 := t.2.2.2
        let initialOrient := (stp.board.fp i).orientation
        let bestRotation := t.2.2.1 + initialOrient
        let bd4 :=
          if bestRotation ≠ (st3.board.fp i).orientation then
            rotateFootprint st3.board i bestRotation false
          else st3.board
        let bd5 := placeFootprint bd4 i st3.curPosition
        let bd6 := bd5.updateFp i (fun fp => { fp with isPlaced := true, needsPlaced := false })
        let m6 := genModuleOnRoutingMatrix bd6 st3.matrix i
        let st4 := { st3 with board := bd6, matrix := m6 }
        if keepGoing cnt = false then (true, st4)
        else autoplaceLoop keepGoing fuel st4 (cnt + 1)

/-- Run result of `AutoplaceFootprints` (`AR_RESULT`). -/
inductive ARResult
  | completed
  | cancelled
  | failure
deriving DecidableEq, Repr

/-- `AR_AUTOPLACER::AutoplaceFootprints`: remember the cursor, clamp the routing
grid to the 0.25 mm minimum, build the placement grid (failing out on a
degenerate board box before any footprint is touched), clear every `needsPlaced`
flag, request placement for the passed footprints and (optionally) the off-board
ones, stamp every remaining footprint into the grid as an obstacle, run the
placement loop, then restore the cursor and release the grid.  The progress
callback is polled once per committed footprint; a null reporter is the
constantly-true callback. -/
noncomputable def AutoplaceFootprints (st : RunState) (aFootprints : List ℕ)
    (aPlaceOffboardModules : Bool) (keepGoing : ℕ → Bool) : ARResult × RunState :=
  let memopos := st.curPosition
  let g := if st.gridSize < 250000 then 250000 else st.gridSize
  let m0 := { st.matrix with gridRouting := g }
  let gen := genPlacementRoutingMatrix st.board m0
  if gen.1 = 0 then (ARResult.failure, { st with matrix := gen.2 })
  else
    let m1 := gen.2
    let newFps := st.board.footprints.map (fun fp : MODULE => { fp with needsPlaced := false })
    let bd1 := { st.board with footprints := newFps }
    let offboard :=
      if aPlaceOffboardModules then
        ((List.range bd1.footprints.length).filter
          (fun i => !(m1.brdBox.contains (bd1.fp i).pos)))
      else []
    let bd2 := aFootprints.foldl
      (fun bb i => bb.updateFp i (fun fp => { fp with needsPlaced := true })) bd1
    let bd3 := offboard.foldl
      (fun bb i => bb.updateFp i (fun fp => { fp with needsPlaced := true })) bd2
    let m2 := (List.range bd3.footprints.length).foldl
      (fun mm i => if (bd3.fp i).needsPlaced = false then genModuleOnRoutingMatrix bd3 mm i
        else mm)
      m1
    let st0 : RunState :=
      { board := bd3
        matrix := m2
        curPosition := st.curPosition
        minCost := st.minCost
        gridSize := st.gridSize }
    let run := autoplaceLoop keepGoing (bd3.footprints.length + 1) st0 0
    let mFin := { run.2.matrix with cell := fun _ _ _ => Cell.empty, dist := fun _ _ _ => 0 }
    let stFin := { run.2 with curPosition := memopos, matrix := mFin }
    (if run.1 then ARResult.cancelled else ARResult.completed, stFin)

/-- Degenerate board box: `genPlacementRoutingMatrix` returns 0 without touching
any footprint. -/
lemma genPlacement_degenerate (bd : ARBoard) (m : ARMatrix)
    (h : bd.edgesBBox.w = 0 ∨ bd.edgesBBox.h = 0) :
    genPlacementRoutingMatrix bd m =
      (0, { m with cell := fun _ _ _ => Cell.empty, dist := fun _ _ _ => 0 }) := by
  unfold genPlacementRoutingMatrix
  rw [if_pos h]

/-- C6: on a board whose edges bounding box has zero width or zero height the run
fails out immediately: the result is `AR_FAILURE` and the board — every
footprint's position, orientation and flags — is left exactly as it was (the
degenerate-box check precedes every footprint mutation). -/
theorem autoplace_degenerate_board (st : RunState) (aFootprints : List ℕ) (off : Bool)
    (kg : ℕ → Bool) (h : st.board.edgesBBox.w = 0 ∨ st.board.edgesBBox.h = 0) :
    (AutoplaceFootprints st aFootprints off kg).1 = ARResult.failure ∧
    (AutoplaceFootprints st aFootprints off kg).2.board = st.board := by
  constructor
  · simp only [AutoplaceFootprints]
    rw [genPlacement_degenerate st.board _ h]
    rfl
  · simp only [AutoplaceFootprints]
    rw [genPlacement_degenerate st.board _ h]
    rfl

/-- A run state over a degenerate (zero-width) board. -/
noncomputable def degenerateRunState : RunState :=
  { board := ⟨[defaultModule], ⟨0, 0, 0, 3000000⟩, [], []⟩
    matrix := emptyMatrix 1000000
    curPosition := ⟨0, 0⟩
    minCost := 0
    gridSize := 1000000 }

/-- Witness for C6 at the concrete degenerate board. -/
theorem autoplace_degenerate_board_witness :
    (AutoplaceFootprints degenerateRunState [0] false (fun _ => true)).1 = ARResult.failure ∧
    (AutoplaceFootprints degenerateRunState [0] false (fun _ => true)).2.board =
      degenerateRunState.board :=
  autoplace_degenerate_board degenerateRunState [0] false (fun _ => true) (Or.inl rfl)

/-- A padless 5 mm × 5 mm front-side footprint at the origin; its bounding box
exceeds the 4 mm board in both dimensions, so no trial position exists at all. -/
def bigFp : MODULE :=
  { defaultModule with baseBBox := ⟨0, 0, 5000000, 5000000⟩ }

/-- Board holding only `bigFp` on the 4 mm × 4 mm outline. -/
def bigBoard : ARBoard :=
  ⟨[bigFp], ⟨0, 0, 4000000, 4000000⟩, rectOutline 4000000 4000000, []⟩

/-- The placement grid the run builds for `bigBoard` at pitch 1 mm. -/
def bigMatrix : ARMatrix :=
  (genPlacementRoutingMatrix bigBoard (emptyMatrix 1000000)).2

/-- The run state before `AutoplaceFootprints` on `bigBoard`. -/
noncomputable def bigRunState : RunState :=
  { board := bigBoard
    matrix := emptyMatrix 1000000
    curPosition := ⟨0, 0⟩
    minCost := 0
    gridSize := 1000000 }

/-- C1: the spec demands a fatal abort when a unit has no legal placement in any
orientation — in particular for a unit larger than the board in both dimensions.
The code disagrees: `getOptimalFPPlacement` initializes `error = 1` and only ever
overwrites it with 0, so it never returns `AR_ABORT_PLACEMENT` (−1) and every
`error == AR_ABORT_PLACEMENT` check is dead.  On the oversized `bigFp` the
candidate list is empty (here: even no candidate exists, let alone a legal one),
yet the run returns `AR_COMPLETED` and commits the unit — placed at the board box
origin (`lastPosOK`'s initial value) with `isPlaced` set. -/
theorem autoplace_oversized_committed_code_bug :
    fpCandidates bigMatrix (bigBoard.fp 0) = [] ∧
    (getOptimalFPPlacement bigBoard bigMatrix 0).error = 1 ∧
    (getOptimalFPPlacement bigBoard bigMatrix 0).error ≠ arAbortPlacement ∧
    (AutoplaceFootprints bigRunState [0] false (fun _ => true)).1 = ARResult.completed ∧
    ((AutoplaceFootprints bigRunState [0] false (fun _ => true)).2.board.fp 0).isPlaced
      = true ∧
    ((AutoplaceFootprints bigRunState [0] false (fun _ => true)).2.board.fp 0).pos
      = bigMatrix.brdBox.origin := by
  refine ⟨by decide, rfl, show (1 : ℤ) ≠ arAbortPlacement by decide, rfl, rfl, rfl⟩

/-- A padless 3.5 mm × 2 mm front-side footprint at the origin: its 180° rotation
cost class is 0 (the spec reads this as "rotation forbidden"), its 90° class is
10 (free); rotated by a quarter turn it no longer fits the free zone of the 4 mm
board vertically. -/
def rotFp : MODULE :=
  { defaultModule with
      baseBBox := ⟨0, 0, 3500000, 2000000⟩
      cost90 := 10
      needsPlaced := true }

/-- `rotFp` alone on the 4 mm × 4 mm outline (needing placement). -/
def rotBoardN : ARBoard :=
  ⟨[rotFp], ⟨0, 0, 4000000, 4000000⟩, rectOutline 4000000 4000000, []⟩

/-- The placement grid the run builds for `rotBoardN` at pitch 1 mm. -/
def rotMatrix : ARMatrix :=
  (genPlacementRoutingMatrix rotBoardN (emptyMatrix 1000000)).2

/-- `rotBoardN` after the 90° incremental rotation of the second trial block. -/
def rotBoard90 : ARBoard := rotateFootprint rotBoardN 0 900 true

/-- `rotBoard90` after the further 270° incremental rotation of the third block. -/
def rotBoard360 : ARBoard := rotateFootprint rotBoard90 0 2700 true

lemma rotScout1 : fpCandidates rotMatrix (rotBoardN.fp 0) = [⟨0, 0⟩, ⟨0, 1000000⟩] := by
  decide

lemma rotScout2 : candVerdict rotBoardN rotMatrix 0 ⟨0, 0⟩ = arOutOfBoard ∧
    candVerdict rotBoardN rotMatrix 0 ⟨0, 1000000⟩ = 0 := by
  decide

lemma rotScout3 : fpCandidates rotMatrix (rotBoard90.fp 0) =
    [⟨0, 3000000⟩, ⟨1000000, 3000000⟩] := by
  decide

lemma rotScout4 : candVerdict rotBoard90 rotMatrix 0 ⟨0, 3000000⟩ = arOutOfBoard ∧
    candVerdict rotBoard90 rotMatrix 0 ⟨1000000, 3000000⟩ = arOutOfBoard := by
  decide

lemma rotScout5 : fpCandidates rotMatrix (rotBoard360.fp 0) = [⟨0, 0⟩, ⟨0, 1000000⟩] ∧
    candVerdict rotBoard360 rotMatrix 0 ⟨0, 0⟩ = arOutOfBoard ∧
    candVerdict rotBoard360 rotMatrix 0 ⟨0, 1000000⟩ = 0 := by
  decide

lemma rotPen : orientationPenalty 10 = 1 := by
  norm_num [orientationPenalty]

lemma rotOpt0 : getOptimalFPPlacement rotBoardN rotMatrix 0 = ⟨0, ⟨0, 1000000⟩, 0⟩ := by
  have hfil : (fpCandidates rotMatrix (rotBoardN.fp 0)).filter
      (candLegal rotBoardN rotMatrix 0) = [⟨0, 1000000⟩] := by decide
  have hsc : candScore rotBoardN rotMatrix 0 ⟨0, 1000000⟩ = 0 := by
    unfold candScore
    rw [show computePlacementRatsnestCost rotBoardN rotMatrix.brdBox 0
        ((rotBoardN.fp 0).pos.sub ⟨0, 1000000⟩) = 0 from rfl]
    rw [show candVerdict rotBoardN rotMatrix 0 ⟨0, 1000000⟩ = 0 from rotScout2.2]
    norm_num
  rw [getOptimal_characterize, hfil]
  show (⟨0, ⟨0, 1000000⟩, candScore rotBoardN rotMatrix 0 ⟨0, 1000000⟩⟩ : OptResult) = _
  rw [hsc]

lemma rotOpt90 : getOptimalFPPlacement rotBoard90 rotMatrix 0 = ⟨1, ⟨0, 0⟩, -1⟩ := by
  have hfil : (fpCandidates rotMatrix (rotBoard90.fp 0)).filter
      (candLegal rotBoard90 rotMatrix 0) = [] := by decide
  rw [getOptimal_characterize, hfil]
  rfl

lemma rotOpt360 : getOptimalFPPlacement rotBoard360 rotMatrix 0 = ⟨0, ⟨0, 1000000⟩, 0⟩ := by
  have hfil : (fpCandidates rotMatrix (rotBoard360.fp 0)).filter
      (candLegal rotBoard360 rotMatrix 0) = [⟨0, 1000000⟩] := by decide
  have hsc : candScore rotBoard360 rotMatrix 0 ⟨0, 1000000⟩ = 0 := by
    unfold candScore
    rw [show computePlacementRatsnestCost rotBoard360 rotMatrix.brdBox 0
        ((rotBoard360.fp 0).pos.sub ⟨0, 1000000⟩) = 0 from rfl]
    rw [show candVerdict rotBoard360 rotMatrix 0 ⟨0, 1000000⟩ = 0 from rotScout5.2.2]
    norm_num
  rw [getOptimal_characterize, hfil]
  show (⟨0, ⟨0, 1000000⟩, candScore rotBoard360 rotMatrix 0 ⟨0, 1000000⟩⟩ : OptResult) = _
  rw [hsc]

/-- Run state entering the placement loop on `rotBoardN`. -/
noncomputable def rotSt0 : RunState := ⟨rotBoardN, rotMatrix, ⟨0, 0⟩, 0, 1000000⟩

/-- Run state after the orientation trials on `rotBoardN`: footprint rotated back
to 0°, cursor left at the 270°-trial optimum. -/
noncomputable def rotSt1 : RunState := ⟨rotBoardN, rotMatrix, ⟨0, 1000000⟩, 0, 1000000⟩

lemma rotTrials_eq : orientationTrials rotSt0 0 = (0, -1, 900, rotSt1) := by
  have hc180 : (rotBoardN.fp 0).cost180 = 0 := rfl
  have hc90 : (rotBoardN.fp 0).cost90 = 10 := rfl
  have horient : (rotBoardN.fp 0).orientation = 0 := rfl
  have hrot90 : rotateFootprint rotBoardN 0 900 true = rotBoard90 := rfl
  have hrot360 : rotateFootprint rotBoard90 0 2700 true = rotBoard360 := rfl
  have hback : rotateFootprint rotBoard360 0 0 false = rotBoardN := rfl
  unfold orientationTrials rotationTrial
  simp only [rotSt0]
  rw [rotOpt0]
  norm_num [hc180, hc90, horient, hrot90, hrot360, hback, rotOpt90, rotOpt360, rotPen,
    arAbortPlacement, rotSt1]

/-- The committed footprint: rotated to 90°, moved to the shared cursor, placed. -/
def rotFpDone : MODULE :=
  ⟨⟨0, 1000000⟩, 900, Layer.fcu, ⟨0, 0, 3500000, 2000000⟩, [], 0, 10, false, true, 0, 0⟩

/-- `rotBoardN` after the loop commits `rotFpDone`. -/
def rotBoardDone : ARBoard :=
  ⟨[rotFpDone], ⟨0, 0, 4000000, 4000000⟩, rectOutline 4000000 4000000, []⟩

/-- Final loop state of the `rotBoardN` run. -/
noncomputable def rotStFin : RunState :=
  ⟨rotBoardDone, genModuleOnRoutingMatrix rotBoardDone rotMatrix 0, ⟨0, 1000000⟩, 0, 1000000⟩

lemma rotLoop1 : autoplaceLoop (fun _ => true) 1
    (⟨rotBoardDone, genModuleOnRoutingMatrix rotBoardDone rotMatrix 0,
      ⟨0, 1000000⟩, 0, 1000000⟩ : RunState) 1 = (false, rotStFin) := rfl

lemma rotLoop : autoplaceLoop (fun _ => true) 2 rotSt0 0 = (false, rotStFin) := by
  have hpick1 : (pickFootprint rotSt0.board).1 = some 0 := by decide
  have hpick2 : (pickFootprint rotSt0.board).2 = rotBoardN := rfl
  have hstp : ({ rotSt0 with board := rotBoardN } : RunState) = rotSt0 := rfl
  have hdone : ((placeFootprint (rotateFootprint rotBoardN 0 900 false) 0
      ⟨0, 1000000⟩).updateFp 0
      (fun fp => { fp with isPlaced := true, needsPlaced := false })) = rotBoardDone := rfl
  show autoplaceLoop (fun _ => true) (1 + 1) rotSt0 0 = (false, rotStFin)
  rw [autoplaceLoop]
  split
  · next heq =>
    rw [hpick1] at heq
    exact absurd heq (by decide)
  · next i heq =>
    rw [hpick1] at heq
    injection heq with hi
    subst hi
    have horb : (rotBoardN.fp 0).orientation = 0 := rfl
    norm_num [hpick2, hstp, rotTrials_eq, rotSt1, arAbortPlacement, horb, hdone, rotLoop1]

/-- The run state handed to `AutoplaceFootprints` for the `rotBoardN` scenario. -/
noncomputable def rotRunState : RunState :=
  ⟨rotBoardN, emptyMatrix 1000000, ⟨0, 0⟩, 0, 1000000⟩

lemma rotRun_reduce : AutoplaceFootprints rotRunState [0] false (fun _ => true) =
    (if (autoplaceLoop (fun _ => true) 2 rotSt0 0).1 then ARResult.cancelled
     else ARResult.completed,
     { (autoplaceLoop (fun _ => true) 2 rotSt0 0).2 with
        curPosition := ⟨0, 0⟩,
        matrix := { (autoplaceLoop (fun _ => true) 2 rotSt0 0).2.matrix with
          cell := fun _ _ _ => Cell.empty, dist := fun _ _ _ => 0 } }) := rfl

/-- C3: the claim reads the 180° cost class 0 as "rotation forbidden", yet only
the 180° trial block is guarded by it; the 90° and 270° blocks test the 90° cost
class alone.  `rotFp` has cost class 0 at 180° and 10 at 90°; its quarter-turn
trial finds no legal position, so that trial's stored minimum stays −1, which
wins the `bestScore > m_minCost` comparison against the legitimate score 0 of the
initial orientation — and the run commits the unit rotated by 90°. -/
theorem autoplace_rotation_forbidden_counterexample :
    (rotBoardN.fp 0).cost180 = 0 ∧
    (rotBoardN.fp 0).orientation = 0 ∧
    (AutoplaceFootprints rotRunState [0] false (fun _ => true)).1 = ARResult.completed ∧
    ((AutoplaceFootprints rotRunState [0] false (fun _ => true)).2.board.fp 0).orientation
      = 900 ∧
    ((AutoplaceFootprints rotRunState [0] false (fun _ => true)).2.board.fp 0).isPlaced
      = true := by
  refine ⟨rfl, rfl, ?_, ?_, ?_⟩ <;> rw [rotRun_reduce, rotLoop] <;> rfl

lemma fpList_map (l : List MODULE) (f : MODULE → MODULE) (i : ℕ)
    (hf : f defaultModule = defaultModule) :
    (l.map f).getD i defaultModule = f (l.getD i defaultModule) := by
  rw [List.getD_eq_getElem?_getD, List.getD_eq_getElem?_getD, List.getElem?_map f l i]
  cases l[i]? with
  | none => simpa using hf.symm
  | some a => rfl

lemma updateFp_fp (bd : ARBoard) (j : ℕ) (f : MODULE → MODULE) (i : ℕ) :
    (bd.updateFp j f).fp i =
      if i = j ∧ i < bd.footprints.length then f (bd.fp i) else bd.fp i := by
  unfold ARBoard.updateFp ARBoard.fp
  show (bd.footprints.enum.map _).getD i defaultModule = _
  rw [List.getD_eq_getElem?_getD, List.getD_eq_getElem?_getD,
    List.getElem?_map _ bd.footprints.enum i, List.getElem?_enum bd.footprints i]
  cases h : bd.footprints[i]? with
  | none =>
    have hlen : bd.footprints.length ≤ i := List.getElem?_eq_none_iff.mp h
    rw [if_neg (fun hc => absurd hc.2 (Nat.not_lt.mpr hlen))]
    rfl
  | some a =>
    have hlen : i < bd.footprints.length := by
      by_contra hc
      rw [List.getElem?_eq_none_iff.mpr (Nat.le_of_not_lt hc)] at h
      cases h
    by_cases hij : i = j
    · rw [if_pos ⟨hij, hlen⟩]
      simp [hij]
    · rw [if_neg (fun hc => absurd hc.1 hij)]
      simp [hij]

lemma pick_fp_fields (bd : ARBoard) (i : ℕ) :
    (((pickFootprint bd).2).fp i).orientation = (bd.fp i).orientation ∧
    (((pickFootprint bd).2).fp i).cost180 = (bd.fp i).cost180 ∧
    (((pickFootprint bd).2).fp i).cost90 = (bd.fp i).cost90 := by
  unfold pickFootprint ARBoard.fp
  simp only []
  rw [fpList_map _ _ _ rfl, fpList_map _ _ _ rfl]
  exact ⟨rfl, rfl, rfl⟩

lemma rotateFootprint_fp_other (bd : ARBoard) (p : ℕ) (a : ℤ) (inc : Bool) (i : ℕ)
    (h : i ≠ p) :
    ((rotateFootprint bd p a inc).fp i) = bd.fp i := by
  unfold rotateFootprint
  rw [updateFp_fp]
  rw [if_neg (fun hc => absurd hc.1 h)]

lemma updateFp_fp_other (bd : ARBoard) (p : ℕ) (f : MODULE → MODULE) (i : ℕ) (h : i ≠ p) :
    ((bd.updateFp p f).fp i) = bd.fp i := by
  rw [updateFp_fp]
  rw [if_neg (fun hc => absurd hc.1 h)]

lemma rotationTrial_fp_other (st : RunState) (p : ℕ) (io : ℤ) (ra : ℕ) (ang : ℤ) (er : ℤ)
    (bs : ℝ) (br : ℤ) (i : ℕ) (h : i ≠ p) :
    (((rotationTrial st p io ra ang er bs br).2.2.2).board).fp i = st.board.fp i := by
  unfold rotationTrial
  split
  · simp only []
    split
    · show ((rotateFootprint st.board p ang true).fp i) = st.board.fp i
      exact rotateFootprint_fp_other _ _ _ _ _ h
    · show ((rotateFootprint (rotateFootprint st.board p ang true) p io false).fp i)
        = st.board.fp i
      rw [rotateFootprint_fp_other _ _ _ _ _ h, rotateFootprint_fp_other _ _ _ _ _ h]
  · rfl

lemma orientationTrials_fp_other (st : RunState) (p i : ℕ) (h : i ≠ p) :
    (((orientationTrials st p).2.2.2).board).fp i = st.board.fp i := by
  unfold orientationTrials
  simp only []
  split
  · rfl
  · split
    · exact rotationTrial_fp_other _ _ _ _ _ _ _ _ _ h
    · split
      · rw [rotationTrial_fp_other _ _ _ _ _ _ _ _ _ h,
          rotationTrial_fp_other _ _ _ _ _ _ _ _ _ h]
      · rw [rotationTrial_fp_other _ _ _ _ _ _ _ _ _ h,
          rotationTrial_fp_other _ _ _ _ _ _ _ _ _ h,
          rotationTrial_fp_other _ _ _ _ _ _ _ _ _ h]

lemma orientationTrials_noRot (st : RunState) (p : ℕ)
    (h180 : (st.board.fp p).cost180 = 0) (h90 : (st.board.fp p).cost90 = 0) :
    (orientationTrials st p).2.2.1 = 0 ∧
    ((orientationTrials st p).2.2.2).board = st.board := by
  unfold orientationTrials rotationTrial
  simp only [h180, h90, ne_eq, not_true_eq_false, if_false]
  split
  · exact ⟨rfl, rfl⟩
  · exact ⟨rfl, rfl⟩

lemma updateFp_fp_fields (bd : ARBoard) (j : ℕ) (f : MODULE → MODULE) (i : ℕ)
    (hf : ∀ m : MODULE, (f m).orientation = m.orientation ∧ (f m).cost180 = m.cost180 ∧
      (f m).cost90 = m.cost90) :
    ((bd.updateFp j f).fp i).orientation = (bd.fp i).orientation ∧
    ((bd.updateFp j f).fp i).cost180 = (bd.fp i).cost180 ∧
    ((bd.updateFp j f).fp i).cost90 = (bd.fp i).cost90 := by
  rw [updateFp_fp]
  split
  · exact hf (bd.fp i)
  · exact ⟨rfl, rfl, rfl⟩

lemma ite_rotate_fp_other (C : Prop) [Decidable C] (b : ARBoard) (p : ℕ) (r : ℤ) (i : ℕ)
    (h : i ≠ p) :
    ((if C then rotateFootprint b p r false else b).fp i) = b.fp i := by
  split
  · exact rotateFootprint_fp_other _ _ _ _ _ h
  · rfl

lemma posf_fields (q : Pt) : ∀ m : MODULE,
    ((fun fp : MODULE => { fp with pos := q }) m).orientation = m.orientation ∧
    ((fun fp : MODULE => { fp with pos := q }) m).cost180 = m.cost180 ∧
    ((fun fp : MODULE => { fp with pos := q }) m).cost90 = m.cost90 :=
  fun _ => ⟨rfl, rfl, rfl⟩

lemma markf_fields : ∀ m : MODULE,
    ((fun fp : MODULE => { fp with isPlaced := true, needsPlaced := false }) m).orientation
      = m.orientation ∧
    ((fun fp : MODULE => { fp with isPlaced := true, needsPlaced := false }) m).cost180
      = m.cost180 ∧
    ((fun fp : MODULE => { fp with isPlaced := true, needsPlaced := false }) m).cost90
      = m.cost90 :=
  fun _ => ⟨rfl, rfl, rfl⟩

lemma autoplaceLoop_keeps_orient (kg : ℕ → Bool) (i : ℕ) :
    ∀ (fuel : ℕ) (st : RunState) (cnt : ℕ),
      (st.board.fp i).cost180 = 0 → (st.board.fp i).cost90 = 0 →
      ((autoplaceLoop kg fuel st cnt).2.board.fp i).orientation
        = (st.board.fp i).orientation ∧
      ((autoplaceLoop kg fuel st cnt).2.board.fp i).cost180 = 0 ∧
      ((autoplaceLoop kg fuel st cnt).2.board.fp i).cost90 = 0 := by
  intro fuel
  induction fuel with
  | zero =>
    intro st cnt h1 h2
    exact ⟨rfl, h1, h2⟩
  | succ fuel ih =>
    intro st cnt h1 h2
    obtain ⟨po, pc1, pc2⟩ := pick_fp_fields st.board i
    rw [autoplaceLoop]
    split
    · exact ⟨po, pc1.trans h1, pc2.trans h2⟩
    · next p heq =>
      simp only [placeFootprint]
      have key : ∀ st4 : RunState, (st4.board.fp i).cost180 = 0 →
          (st4.board.fp i).cost90 = 0 →
          (st4.board.fp i).orientation = (st.board.fp i).orientation →
          ((autoplaceLoop kg fuel st4 (cnt + 1)).2.board.fp i).orientation
            = (st.board.fp i).orientation ∧
          ((autoplaceLoop kg fuel st4 (cnt + 1)).2.board.fp i).cost180 = 0 ∧
          ((autoplaceLoop kg fuel st4 (cnt + 1)).2.board.fp i).cost90 = 0 := by
        intro st4 hA hB hC
        exact ⟨(ih st4 (cnt + 1) hA hB).1.trans hC, (ih st4 (cnt + 1) hA hB).2.1,
          (ih st4 (cnt + 1) hA hB).2.2⟩
      by_cases hip : i = p
      · subst hip
        have hnr := orientationTrials_noRot
          { st with board := (pickFootprint st.board).2 } i (pc1.trans h1) (pc2.trans h2)
        rw [hnr.1, hnr.2, zero_add]
        split
        · dsimp only []
          rw [hnr.2]
          exact ⟨po, pc1.trans h1, pc2.trans h2⟩
        · split
          · dsimp only []
            split
            · next hgr => exact absurd rfl hgr
            · exact ⟨(updateFp_fp_fields _ i _ i markf_fields).1.trans
                  ((updateFp_fp_fields _ i _ i (posf_fields _)).1.trans po),
                (updateFp_fp_fields _ i _ i markf_fields).2.1.trans
                  ((updateFp_fp_fields _ i _ i (posf_fields _)).2.1.trans
                    (pc1.trans h1)),
                (updateFp_fp_fields _ i _ i markf_fields).2.2.trans
                  ((updateFp_fp_fields _ i _ i (posf_fields _)).2.2.trans
                    (pc2.trans h2))⟩
          · split
            · next hgr => exact absurd rfl hgr
            · exact key _
                ((updateFp_fp_fields _ i _ i markf_fields).2.1.trans
                  ((updateFp_fp_fields _ i _ i (posf_fields _)).2.1.trans
                    (pc1.trans h1)))
                ((updateFp_fp_fields _ i _ i markf_fields).2.2.trans
                  ((updateFp_fp_fields _ i _ i (posf_fields _)).2.2.trans
                    (pc2.trans h2)))
                ((updateFp_fp_fields _ i _ i markf_fields).1.trans
                  ((updateFp_fp_fields _ i _ i (posf_fields _)).1.trans po))
      · have hot := orientationTrials_fp_other
          { st with board := (pickFootprint st.board).2 } p i hip
        split
        · dsimp only []
          rw [hot]
          exact ⟨po, pc1.trans h1, pc2.trans h2⟩
        · split
          · dsimp only []
            rw [updateFp_fp_other _ p _ i hip, updateFp_fp_other _ p _ i hip,
              ite_rotate_fp_other _ _ p _ i hip, hot]
            exact ⟨po, pc1.trans h1, pc2.trans h2⟩
          · exact key _
              ((congrArg MODULE.cost180
                ((updateFp_fp_other _ p _ i hip).trans
                  ((updateFp_fp_other _ p _ i hip).trans
                    ((ite_rotate_fp_other _ _ p _ i hip).trans hot)))).trans
                (pc1.trans h1))
              ((congrArg MODULE.cost90
                ((updateFp_fp_other _ p _ i hip).trans
                  ((updateFp_fp_other _ p _ i hip).trans
                    ((ite_rotate_fp_other _ _ p _ i hip).trans hot)))).trans
                (pc2.trans h2))
              ((congrArg MODULE.orientation
                ((updateFp_fp_other _ p _ i hip).trans
                  ((updateFp_fp_other _ p _ i hip).trans
                    ((ite_rotate_fp_other _ _ p _ i hip).trans hot)))).trans po)

lemma foldl_updateFp_fields (f : MODULE → MODULE)
    (hf : ∀ m : MODULE, (f m).orientation = m.orientation ∧ (f m).cost180 = m.cost180 ∧
      (f m).cost90 = m.cost90) (l : List ℕ) :
    ∀ (bd : ARBoard) (i : ℕ),
      (((l.foldl (fun bb j => bb.updateFp j f) bd).fp i).orientation
        = (bd.fp i).orientation) ∧
      (((l.foldl (fun bb j => bb.updateFp j f) bd).fp i).cost180 = (bd.fp i).cost180) ∧
      (((l.foldl (fun bb j => bb.updateFp j f) bd).fp i).cost90 = (bd.fp i).cost90) := by
  induction l with
  | nil => intro bd i; exact ⟨rfl, rfl, rfl⟩
  | cons a as ih =>
    intro bd i
    rw [List.foldl_cons]
    obtain ⟨x1, x2, x3⟩ := ih (bd.updateFp a f) i
    obtain ⟨y1, y2, y3⟩ := updateFp_fp_fields bd a f i hf
    exact ⟨x1.trans y1, x2.trans y2, x3.trans y3⟩

/-- C3 (amended): the 180° cost class guards only the 180° trial block; the 90°
and 270° blocks are guarded by the 90° cost class alone (one shared `rotAllowed`
read).  Consequently a unit is rotation-locked only when BOTH classes are 0, and
for such a unit every run — whatever it does to other units — leaves the unit's
orientation exactly as it was. -/
theorem autoplace_norotation_preserved (st : RunState) (aFootprints : List ℕ)
    (off : Bool) (kg : ℕ → Bool) (i : ℕ)
    (h180 : (st.board.fp i).cost180 = 0) (h90 : (st.board.fp i).cost90 = 0) :
    ((AutoplaceFootprints st aFootprints off kg).2.board.fp i).orientation =
      (st.board.fp i).orientation := by
  unfold AutoplaceFootprints
  simp only []
  split <;> split
  · rfl
  · refine ((autoplaceLoop_keeps_orient kg i _ _ 0 ?_ ?_).1).trans ?_
    · exact (foldl_updateFp_fields (fun fp : MODULE => { fp with needsPlaced := true })
        (fun m => ⟨rfl, rfl, rfl⟩) _ _ i).2.1.trans
        ((foldl_updateFp_fields (fun fp : MODULE => { fp with needsPlaced := true })
          (fun m => ⟨rfl, rfl, rfl⟩) _ _ i).2.1.trans
          ((congrArg MODULE.cost180 (fpList_map st.board.footprints
            (fun fp : MODULE => { fp with needsPlaced := false }) i rfl)).trans h180))
    · exact (foldl_updateFp_fields (fun fp : MODULE => { fp with needsPlaced := true })
        (fun m => ⟨rfl, rfl, rfl⟩) _ _ i).2.2.trans
        ((foldl_updateFp_fields (fun fp : MODULE => { fp with needsPlaced := true })
          (fun m => ⟨rfl, rfl, rfl⟩) _ _ i).2.2.trans
          ((congrArg MODULE.cost90 (fpList_map st.board.footprints
            (fun fp : MODULE => { fp with needsPlaced := false }) i rfl)).trans h90))
    · exact (foldl_updateFp_fields (fun fp : MODULE => { fp with needsPlaced := true })
        (fun m => ⟨rfl, rfl, rfl⟩) _ _ i).1.trans
        ((foldl_updateFp_fields (fun fp : MODULE => { fp with needsPlaced := true })
          (fun m => ⟨rfl, rfl, rfl⟩) _ _ i).1.trans
          ((congrArg MODULE.orientation (fpList_map st.board.footprints
            (fun fp : MODULE => { fp with needsPlaced := false }) i rfl)).trans rfl))
  · rfl
  · refine ((autoplaceLoop_keeps_orient kg i _ _ 0 ?_ ?_).1).trans ?_
    · exact (foldl_updateFp_fields (fun fp : MODULE => { fp with needsPlaced := true })
        (fun m => ⟨rfl, rfl, rfl⟩) _ _ i).2.1.trans
        ((foldl_updateFp_fields (fun fp : MODULE => { fp with needsPlaced := true })
          (fun m => ⟨rfl, rfl, rfl⟩) _ _ i).2.1.trans
          ((congrArg MODULE.cost180 (fpList_map st.board.footprints
            (fun fp : MODULE => { fp with needsPlaced := false }) i rfl)).trans h180))
    · exact (foldl_updateFp_fields (fun fp : MODULE => { fp with needsPlaced := true })
        (fun m => ⟨rfl, rfl, rfl⟩) _ _ i).2.2.trans
        ((foldl_updateFp_fields (fun fp : MODULE => { fp with needsPlaced := true })
          (fun m => ⟨rfl, rfl, rfl⟩) _ _ i).2.2.trans
          ((congrArg MODULE.cost90 (fpList_map st.board.footprints
            (fun fp : MODULE => { fp with needsPlaced := false }) i rfl)).trans h90))
    · exact (foldl_updateFp_fields (fun fp : MODULE => { fp with needsPlaced := true })
        (fun m => ⟨rfl, rfl, rfl⟩) _ _ i).1.trans
        ((foldl_updateFp_fields (fun fp : MODULE => { fp with needsPlaced := true })
          (fun m => ⟨rfl, rfl, rfl⟩) _ _ i).1.trans
          ((congrArg MODULE.orientation (fpList_map st.board.footprints
            (fun fp : MODULE => { fp with needsPlaced := false }) i rfl)).trans rfl))

/-- Witness for the amended C3 theorem at a concrete run: `bigFp` has both
rotation cost classes 0 and keeps its orientation. -/
theorem autoplace_norotation_preserved_witness :
    (bigRunState.board.fp 0).cost180 = 0 ∧ (bigRunState.board.fp 0).cost90 = 0 ∧
    ((AutoplaceFootprints bigRunState [0] false (fun _ => true)).2.board.fp 0).orientation =
      (bigRunState.board.fp 0).orientation :=
  ⟨rfl, rfl, autoplace_norotation_preserved bigRunState [0] false (fun _ => true) 0 rfl rfl⟩
